import Mathlib

/-! Shallow embedding of the trial-to-crop windowing and streaming mini-batch
pipeline of the hgdecode repository (`src/hgdecode/classes.py`): the
`EEGDataset` class (eager bulk cropping, temporal splitting, one-hot
encoding) and the `EEGDataGenerator` class (streaming crop batcher).
Python/numpy integer arithmetic is modelled over `Nat`/`Int`
(`int(ceil(a / s))` as the exact rational ceiling), numpy arrays as nested
lists (a trial is a list of channels, each channel a list of samples), and
fallible numpy operations as `Except PyError`. -/

namespace Hgdecode

/-- Runtime failures the Python code can raise on the modelled paths. -/
inductive PyError where
  | zeroDivision
  | negativeDimensions
  | broadcastMismatch
  | indexOutOfRange
  | assertionFailed
  | outOfFuel
  deriving DecidableEq

/-- Exact ceiling of the rational quotient `a / s` for `s ≠ 0` (and `0` at
`s = 0`, a branch every caller guards).  This models numpy's
`int(ceil(a / s))` on Python integers: true division, then `ceil`, then
`int`, which is the mathematical ceiling of the fraction. -/
def ceilDivInt (a s : ℤ) : ℤ :=
  if 0 < s then -(-a / s) else if s < 0 then -(a / -s) else 0

/-- `classes.py:272-275` (and `372-374`): the crop-count computation
`n_crops = int(ceil((w - crop_sample_size + 1) / crop_step))`. -/
def cropCount (w crop_size step : ℤ) : ℤ :=
  ceilDivInt (w - crop_size + 1) step

/-- `keras.utils.to_categorical` on one integer label: a row of `n` entries
with a single `1` at position `lab` (rows with `lab ≥ n` do not occur on the
modelled paths). -/
def oneHot (n lab : ℕ) : List ℕ :=
  (List.range n).map (fun i => if i = lab then 1 else 0)

/-- `EEGDataset.crop_X` (`classes.py:301-317`): window `i` of a trial is the
slice `X[:, i*step : i*step + size]`; Python slices clamp at the channel
end just as `drop`/`take` do.  `List.range n.toNat` is empty for `n ≤ 0`,
exactly like Python's `range(n)`. -/
def crop_X {α : Type} (X : List (List α)) (n_crops size step : ℕ) :
    List (List (List α)) :=
  (List.range n_crops).map (fun i => X.map (fun ch => (ch.drop (i * step)).take size))

/-- `EEGDataset.crop_y` (`classes.py:319-321`): `numpy.repeat(y, n_crops)`. -/
def crop_y (y : ℕ) (n_crops : ℕ) : List ℕ :=
  List.replicate n_crops y

/-- `X.shape[2]` of a (rectangular) 3-D array modelled as nested lists: the
sample count of the first channel of the first trial. -/
def dim3 {α : Type} (X : List (List (List α))) : ℕ :=
  ((X.headD []).headD []).length

/-- `EEGDataset.crop_X_y` (`classes.py:265-299`).  Guards mirror the numpy
failures in Python evaluation order: the division by `crop_step` first
(`ZeroDivisionError`), then `zeros((n_crops * d, h, crop_sample_size))`
(`ValueError` on a negative dimension), then the per-trial fill loop, whose
window assignments fail on a shape mismatch (possible only for a negative
`crop_step`, where Python's negative slice indices also come into play; no
claim reaches that region, and it is collapsed into `broadcastMismatch`)
and whose `y[i]` reads fail when `y` is shorter than `X`
(`IndexError`).  On success the loop concatenates per-trial crops and
replicated labels in trial order. -/
def crop_X_y {α : Type} (X : List (List (List α))) (y : List ℕ)
    (crop_sample_size crop_step : ℤ) :
    Except PyError (List (List (List α)) × List ℕ) :=
  let d : ℕ := X.length
  let w : ℤ := (dim3 X : ℤ)
  if crop_step = 0 then .error .zeroDivision else
  let n : ℤ := cropCount w crop_sample_size crop_step
  if n * d < 0 ∨ crop_sample_size < 0 then .error .negativeDimensions else
  if crop_step < 0 ∧ 0 < n ∧ 0 < d then .error .broadcastMismatch else
  if y.length < d then .error .indexOutOfRange else
  .ok (X.flatMap (fun trial => crop_X trial n.toNat crop_sample_size.toNat crop_step.toNat),
       (y.take d).flatMap (fun lab => crop_y lab n.toNat))

/-- The six parallel arrays held by `EEGDataset` (`classes.py:153-168`). -/
structure EEGDataset (α : Type) where
  X_train : List (List (List α))
  y_train : List ℕ
  X_valid : List (List (List α))
  y_valid : List ℕ
  X_test : List (List (List α))
  y_test : List ℕ
  deriving DecidableEq

/-- `EEGDataset.__init__` (`classes.py:153-168`): the three `assert
len(X) == len(y)` checks, then field assignment. -/
def mkEEGDataset {α : Type} (trX : List (List (List α))) (trY : List ℕ)
    (vaX : List (List (List α))) (vaY : List ℕ)
    (teX : List (List (List α))) (teY : List ℕ) :
    Except PyError (EEGDataset α) :=
  if trX.length = trY.length ∧ vaX.length = vaY.length ∧ teX.length = teY.length
  then .ok ⟨trX, trY, vaX, vaY, teX, teY⟩
  else .error .assertionFailed

/-- Python list slicing `l[i:j]` (step 1) with full negative-index and
clamping semantics: a negative bound counts from the end, bounds are clamped
to `[0, len l]`. -/
def pySlice {β : Type} (l : List β) (i j : ℤ) : List β :=
  let n : ℤ := (l.length : ℤ)
  let lo : ℤ := if i < 0 then max 0 (n + i) else min i n
  let hi : ℤ := if j < 0 then max 0 (n + j) else min j n
  (l.take hi.toNat).drop lo.toNat

/-- `EEGDataset.from_epo_to_dataset` (`classes.py:207-233`):
`valid_len = int(floor(train_len * validation_frac))`,
`train_len -= valid_len`, then contiguous index windows
`[0:train_len]`, `[train_len:train_len+valid_len]` from the head and
`[-test_len:]` from the tail of `arange(tot_len)`, applied to `epo.X` and
`epo.y` (which are parallel, so slicing the arrays directly is the fancy
indexing by those windows).  No overlap check of any kind is performed.
The final `EEGDataset(...)` call runs the constructor asserts. -/
def from_epo_to_dataset {α : Type} (X : List (List (List α))) (y : List ℕ)
    (train_len test_len : ℕ) (validation_frac : ℚ) :
    Except PyError (EEGDataset α) :=
  let valid_len : ℤ := ⌊(train_len : ℚ) * validation_frac⌋
  let train_len' : ℤ := (train_len : ℤ) - valid_len
  mkEEGDataset
    (pySlice X 0 train_len') (pySlice y 0 train_len')
    (pySlice X train_len' (train_len' + valid_len))
    (pySlice y train_len' (train_len' + valid_len))
    (pySlice X (-(test_len : ℤ)) (X.length : ℤ))
    (pySlice y (-(test_len : ℤ)) (y.length : ℤ))

/-- `EEGDataset.make_crops` (`classes.py:235-263`): when a crop size is
given, destructively replace each partition's `X`/`y` by its `crop_X_y`
output (train, then valid, then test); when it is `None`, do nothing.
There is no guard against repeated invocation. -/
def make_crops {α : Type} (ds : EEGDataset α) (crop_sample_size : Option ℤ)
    (crop_step : ℤ) : Except PyError (EEGDataset α) :=
  match crop_sample_size with
  | none => .ok ds
  | some size =>
    match crop_X_y ds.X_train ds.y_train size crop_step with
    | .error e => .error e
    | .ok tr =>
      match crop_X_y ds.X_valid ds.y_valid size crop_step with
      | .error e => .error e
      | .ok va =>
        match crop_X_y ds.X_test ds.y_test size crop_step with
        | .error e => .error e
        | .ok te => .ok ⟨tr.1, tr.2, va.1, va.2, te.1, te.2⟩

/-- `EEGDataset.to_categorical` (`classes.py:329-334`): when `n_classes` is
`None` it is `len(unique(self.y_train))`, the number of distinct labels in
the train partition; all three label vectors are then one-hot encoded
against that count.  Returns the three new label matrices. -/
def to_categorical_ds (y_train y_valid y_test : List ℕ) (n_classes : Option ℕ) :
    List (List ℕ) × List (List ℕ) × List (List ℕ) :=
  let n : ℕ := match n_classes with
    | none => y_train.dedup.length
    | some m => m
  (y_train.map (oneHot n), y_valid.map (oneHot n), y_test.map (oneHot n))

/-- The mutable state of `EEGDataGenerator` (`classes.py:337-481`).
`n_trials`, `n_channels`, `n_samples` and `n_crops` are derived quantities
(see `genTotalCrops`); `current_batch` is write-only bookkeeping and
omitted. -/
structure GenState (α : Type) where
  X : List (List (List α))
  y : List ℕ
  batch_size : ℕ
  n_classes : ℕ
  crop_sample_size : ℕ
  crop_step : ℕ
  n_crops_for_trial : ℕ
  shuffle : Bool
  indexes : List ℕ
  next_to_unpack : ℕ
  crop_stack_X : List (List (List α))
  crop_stack_y : List ℕ
  deriving DecidableEq

/-- `self.n_crops = self.n_crops_for_trial * self.n_trials`
(`classes.py:375`) with `n_trials = X.shape[0]`. -/
def genTotalCrops {α : Type} (s : GenState α) : ℕ :=
  s.n_crops_for_trial * s.X.length

/-- `EEGDataGenerator.__len__` (`classes.py:391-393`):
`int(floor(n_crops / batch_size))` — the floor of the true division, i.e.
natural division (callers guarantee `batch_size > 0`; Python would raise
`ZeroDivisionError` at 0). -/
def gen_len {α : Type} (s : GenState α) : ℕ :=
  genTotalCrops s / s.batch_size

/-- `EEGDataGenerator.on_epoch_end` (`classes.py:405-414`):
`indexes = arange(n_trials)`, shuffled in place iff `shuffle` holds, and
the cursor resets to 0.  The shuffled order drawn from numpy's global RNG
is modelled as the externally supplied `perm`. -/
def on_epoch_end {α : Type} (s : GenState α) (perm : List ℕ) : GenState α :=
  { s with indexes := if s.shuffle then perm else List.range s.X.length,
           next_to_unpack := 0 }

/-- `EEGDataGenerator.unpack_trial` (`classes.py:444-481`): crop the trial
at `indexes[next_to_unpack]` (an `IndexError` when the cursor has run off
the order, the situation the spec calls `ExhaustedTrials`).  When the
cursor is 0 the crop stacks are *recreated* from this trial, discarding
their previous content; otherwise the crops and replicated labels are
appended.  The cursor then advances by one.  (`indexes` entries are always
valid trial indices — a permutation of `arange(n_trials)` — so `X[t]` and
`y[t]` are modelled with `getD`.) -/
def unpack_trial {α : Type} (s : GenState α) : Except PyError (GenState α) :=
  match s.indexes[s.next_to_unpack]? with
  | none => .error .indexOutOfRange
  | some t =>
    let cx := crop_X (s.X.getD t []) s.n_crops_for_trial s.crop_sample_size s.crop_step
    let cy := crop_y (s.y.getD t 0) s.n_crops_for_trial
    if s.next_to_unpack = 0 then
      .ok { s with crop_stack_X := cx, crop_stack_y := cy,
                   next_to_unpack := s.next_to_unpack + 1 }
    else
      .ok { s with crop_stack_X := s.crop_stack_X ++ cx,
                   crop_stack_y := s.crop_stack_y ++ cy,
                   next_to_unpack := s.next_to_unpack + 1 }

/-- The `while len(self.crop_stack_y) < self.batch_size: self.unpack_trial()`
loop of `EEGDataGenerator.__data_generation` (`classes.py:418-419`),
written with explicit fuel; each iteration either finishes, raises, or
advances the cursor, so the `s.indexes.length + 1` fuel supplied by
`data_generation` can never run out (`outOfFuel` is unreachable there). -/
def refill {α : Type} : GenState α → ℕ → Except PyError (GenState α)
  | s, 0 => if s.crop_stack_y.length < s.batch_size then .error .outOfFuel else .ok s
  | s, fuel + 1 =>
    if s.crop_stack_y.length < s.batch_size then
      match unpack_trial s with
      | .error e => .error e
      | .ok s' => refill s' fuel
    else .ok s

/-- `EEGDataGenerator.__data_generation` (`classes.py:416-442`): refill the
crop stacks until they hold at least `batch_size` items, take the first
`batch_size` crops and labels, keep the rest on the stacks, insert a
singleton channel axis into the returned `X` (`X[:, newaxis, ...]`) and
one-hot encode the returned labels against `n_classes`. -/
def data_generation {α : Type} (s : GenState α) :
    Except PyError (List (List (List (List α))) × List (List ℕ) × GenState α) :=
  match refill s (s.indexes.length + 1) with
  | .error e => .error e
  | .ok t =>
    .ok ((t.crop_stack_X.take s.batch_size).map (fun c => [c]),
         (t.crop_stack_y.take s.batch_size).map (fun lab => oneHot s.n_classes lab),
         { t with crop_stack_X := t.crop_stack_X.drop s.batch_size,
                  crop_stack_y := t.crop_stack_y.drop s.batch_size })

/-- `EEGDataGenerator.__init__` (`classes.py:342-389`): store the data and
dimensions, infer `n_classes` from the distinct labels of `y` when omitted,
compute `n_crops_for_trial` from the geometry (negative counts cannot reach
`crop_X`'s allocation on any claimed path, so the stored count is the
clamped `toNat`; `range` of a negative count is empty either way), run
`on_epoch_end()` and then eagerly unpack the first trial — which raises
(`IndexError`) when there are no trials. -/
def gen_init {α : Type} (X : List (List (List α))) (y : List ℕ)
    (batch_size : ℕ) (n_classes : Option ℕ) (crop_sample_size crop_step : ℕ)
    (shuffle : Bool) (perm : List ℕ) : Except PyError (GenState α) :=
  let nc : ℕ := match n_classes with
    | none => y.dedup.length
    | some m => m
  let s0 : GenState α :=
    { X := X, y := y, batch_size := batch_size, n_classes := nc,
      crop_sample_size := crop_sample_size, crop_step := crop_step,
      n_crops_for_trial := (cropCount (dim3 X : ℤ) (crop_sample_size : ℤ) (crop_step : ℤ)).toNat,
      shuffle := shuffle,
      indexes := [], next_to_unpack := 0, crop_stack_X := [], crop_stack_y := [] }
  unpack_trial (on_epoch_end s0 perm)

/-- `m` successive `__getitem__` calls (`classes.py:395-403`): the batcher
is strictly sequential and ignores the advisory index, so a training epoch
is just iterated `data_generation`. -/
def apply_batches {α : Type} : GenState α → ℕ → Except PyError (GenState α)
  | s, 0 => .ok s
  | s, m + 1 =>
    match data_generation s with
    | .error e => .error e
    | .ok r => apply_batches r.2.2 m

/-- The slice of `k` trial indices the refill loop will unpack next:
`indexes[next_to_unpack : next_to_unpack + k]`. -/
def pendingTrials {α : Type} (s : GenState α) (k : ℕ) : List ℕ :=
  (s.indexes.drop s.next_to_unpack).take k

/-- The crops one `unpack_trial` call contributes for trial index `t`. -/
def trialCropsX {α : Type} (s : GenState α) (t : ℕ) : List (List (List α)) :=
  crop_X (s.X.getD t []) s.n_crops_for_trial s.crop_sample_size s.crop_step

/-- The replicated labels one `unpack_trial` call contributes for trial
index `t`. -/
def trialCropsY {α : Type} (s : GenState α) (t : ℕ) : List ℕ :=
  crop_y (s.y.getD t 0) s.n_crops_for_trial

/-- The number of `unpack_trial` calls a `__data_generation` request makes:
0 when the stack already holds a batch, otherwise enough whole trials to
reach `batch_size` — counted from an empty stack when the cursor is 0,
because the first unpack then *recreates* the stack. -/
def dgK {α : Type} (s : GenState α) : ℕ :=
  if s.batch_size ≤ s.crop_stack_y.length then 0
  else if s.next_to_unpack = 0 then
    (s.batch_size + s.n_crops_for_trial - 1) / s.n_crops_for_trial
  else
    (s.batch_size - s.crop_stack_y.length + s.n_crops_for_trial - 1) / s.n_crops_for_trial

/-- The part of the crop stack that survives a `__data_generation` request:
everything, unless the request refills with the cursor at 0, in which case
the first unpack discards the leftover stack. -/
def dgBaseX {α : Type} (s : GenState α) : List (List (List α)) :=
  if s.next_to_unpack = 0 ∧ s.crop_stack_y.length < s.batch_size then []
  else s.crop_stack_X

/-- Label counterpart of `dgBaseX`. -/
def dgBaseY {α : Type} (s : GenState α) : List ℕ :=
  if s.next_to_unpack = 0 ∧ s.crop_stack_y.length < s.batch_size then []
  else s.crop_stack_y

/-- A concrete mid-stream batcher state over two one-channel trials of five
samples (geometry 3/1, three crops per trial, batch size 4), as reached
right after construction. -/
def genStateW : GenState ℤ :=
  ⟨[[[0, 1, 2, 3, 4]], [[5, 6, 7, 8, 9]]], [0, 1], 4, 2, 3, 1, 3, false, [0, 1], 1,
   [[[0, 1, 2]], [[1, 2, 3]], [[2, 3, 4]]], [0, 0, 0]⟩

lemma ceilDivInt_bounds (a s : ℤ) (hs : 0 < s) :
    (ceilDivInt a s - 1) * s < a ∧ a ≤ ceilDivInt a s * s := by
  unfold ceilDivInt
  rw [if_pos hs]
  have h1 := Int.ediv_add_emod (-a) s
  have h2 := Int.emod_nonneg (-a) (ne_of_gt hs)
  have h3 := Int.emod_lt_of_pos (-a) hs
  constructor <;> nlinarith [h1, h2, h3]

lemma crop_X_length {α : Type} (X : List (List α)) (n size step : ℕ) :
    (crop_X X n size step).length = n := by
  simp [crop_X]

lemma crop_X_getElem {α : Type} (X : List (List α)) (n size step i : ℕ)
    (hi : i < n) :
    (crop_X X n size step)[i]? =
      some (X.map (fun ch => (ch.drop (i * step)).take size)) := by
  simp [crop_X, List.getElem?_map, List.getElem?_range hi]

lemma window_length {α : Type} (ch : List α) (L size step i : ℕ)
    (hch : ch.length = L) (hfit : i * step + size ≤ L) :
    ((ch.drop (i * step)).take size).length = size := by
  simp only [List.length_take, List.length_drop, hch]
  omega

/-- C1.  Cropping correctness: for a trial with channels of length `L` and a
geometry `0 < size ≤ L`, `0 < step`, the crop count of the code is the
ceiling of `(L - size + 1) / step` (characterised by its defining
inequalities), and `crop_X` yields exactly that many windows, each with the
trial's channel count and `size` samples per channel, window `i` holding
the trial's samples from offset `i*step` up to (but excluding)
`i*step + size`. -/
theorem crop_windows_correct {α : Type} (X : List (List α)) (L size step n : ℕ)
    (hch : ∀ ch ∈ X, ch.length = L) (hsize : 0 < size) (hsizeL : size ≤ L)
    (hstep : 0 < step)
    (hn : cropCount (L : ℤ) (size : ℤ) (step : ℤ) = (n : ℤ)) :
    ((n - 1) * step < L - size + 1 ∧ L - size + 1 ≤ n * step)
    ∧ (crop_X X n size step).length = n
    ∧ ∀ i, i < n →
        ∃ win, (crop_X X n size step)[i]? = some win
          ∧ win.length = X.length
          ∧ (∀ ch ∈ win, ch.length = size)
          ∧ ∀ c j, j < size → (win.getD c [])[j]? = (X.getD c [])[i * step + j]? := by
  have hstepZ : (0 : ℤ) < (step : ℤ) := by exact_mod_cast hstep
  have hb := ceilDivInt_bounds ((L : ℤ) - (size : ℤ) + 1) (step : ℤ) hstepZ
  rw [show ceilDivInt ((L : ℤ) - (size : ℤ) + 1) (step : ℤ)
        = cropCount (L : ℤ) (size : ℤ) (step : ℤ) from rfl, hn] at hb
  have hcast : ((L - size + 1 : ℕ) : ℤ) = (L : ℤ) - (size : ℤ) + 1 := by
    push_cast [hsizeL]
    ring
  have hbounds : (n - 1) * step < L - size + 1 ∧ L - size + 1 ≤ n * step := by
    rcases hb with ⟨hb1, hb2⟩
    constructor
    · rcases Nat.eq_zero_or_pos n with hn0 | hn1
      · subst hn0
        omega
      · have : (((n - 1) * step : ℕ) : ℤ) = ((n : ℤ) - 1) * (step : ℤ) := by
          push_cast [hn1]
          ring
        omega
    · have : ((n * step : ℕ) : ℤ) = (n : ℤ) * (step : ℤ) := by push_cast; ring
      omega
  refine ⟨hbounds, crop_X_length X n size step, ?_⟩
  intro i hi
  have hfit : ∀ {c : List α}, c ∈ X → i * step + size ≤ L := by
    intro c _
    have hle : i ≤ n - 1 := by omega
    have := Nat.mul_le_mul_right step hle
    omega
  refine ⟨X.map (fun ch => (ch.drop (i * step)).take size),
    crop_X_getElem X n size step i hi, by simp, ?_, ?_⟩
  · intro ch hchmem
    rcases List.mem_map.mp hchmem with ⟨c, hc, rfl⟩
    exact window_length c L size step i (hch c hc) (hfit hc)
  · intro c j hj
    rw [List.getD_eq_getElem?_getD, List.getD_eq_getElem?_getD,
        List.getElem?_map]
    cases hcc : X[c]? with
    | none => simp
    | some ch =>
      simp only [Option.map_some', Option.getD_some]
      rw [List.getElem?_take_of_lt hj, List.getElem?_drop]

/-- Witness for C1 at a concrete trial: one channel of length 5, window
size 3, stride 2, crop count 2. -/
theorem crop_windows_correct_witness :
    ((∀ ch ∈ [[(10 : ℤ), 11, 12, 13, 14]], ch.length = 5) ∧ 0 < 3 ∧ 3 ≤ 5 ∧ 0 < 2
      ∧ cropCount ((5 : ℕ) : ℤ) ((3 : ℕ) : ℤ) ((2 : ℕ) : ℤ) = ((2 : ℕ) : ℤ))
    ∧ (((2 - 1) * 2 < 5 - 3 + 1 ∧ 5 - 3 + 1 ≤ 2 * 2)
    ∧ (crop_X [[(10 : ℤ), 11, 12, 13, 14]] 2 3 2).length = 2
    ∧ ∀ i, i < 2 →
        ∃ win, (crop_X [[(10 : ℤ), 11, 12, 13, 14]] 2 3 2)[i]? = some win
          ∧ win.length = ([[(10 : ℤ), 11, 12, 13, 14]]).length
          ∧ (∀ ch ∈ win, ch.length = 3)
          ∧ ∀ c j, j < 3 →
              (win.getD c [])[j]? = (([[(10 : ℤ), 11, 12, 13, 14]]).getD c [])[i * 2 + j]?) :=
  ⟨⟨by decide, by decide, by decide, by decide, by decide⟩,
   crop_windows_correct [[(10 : ℤ), 11, 12, 13, 14]] 5 3 2 2
     (by decide) (by decide) (by decide) (by decide) (by decide)⟩

lemma crop_X_y_ok {α : Type} {X : List (List (List α))} {y : List ℕ}
    {size step : ℤ} {p : List (List (List α)) × List ℕ}
    (h : crop_X_y X y size step = .ok p) :
    p.1 = X.flatMap (fun trial =>
        crop_X trial (cropCount (dim3 X) size step).toNat size.toNat step.toNat)
    ∧ p.2 = (y.take X.length).flatMap (fun lab =>
        crop_y lab (cropCount (dim3 X) size step).toNat) := by
  unfold crop_X_y at h
  simp only at h
  split at h
  · cases h
  split at h
  · cases h
  split at h
  · cases h
  split at h
  · cases h
  cases h
  exact ⟨rfl, rfl⟩

lemma flatMap_replicate_getElem (l : List ℕ) (n t j : ℕ) (ht : t < l.length)
    (hj : j < n) :
    (l.flatMap (fun lab => List.replicate n lab))[t * n + j]? = l[t]? := by
  induction l generalizing t with
  | nil => simp at ht
  | cons a tl ih =>
    cases t with
    | zero =>
      simp only [List.flatMap_cons, Nat.zero_mul, Nat.zero_add]
      rw [List.getElem?_append]
      simp [List.length_replicate, hj, List.getElem?_replicate]
    | succ u =>
      simp only [List.flatMap_cons]
      have hlen : (List.replicate n a).length ≤ (u + 1) * n + j := by
        simp only [List.length_replicate, Nat.succ_mul]
        omega
      rw [List.getElem?_append_right hlen]
      have hidx : (u + 1) * n + j - (List.replicate n a).length = u * n + j := by
        simp only [List.length_replicate, Nat.succ_mul]
        omega
      rw [hidx]
      simpa using ih u (by simpa using ht)

/-- C4.  Label-replication law: in the bulk cropping output, the label at
position `t * n + j` (crop `j` of trial `t`, `n` the per-trial crop count)
is the original label of trial `t`, for every geometry on which the bulk
crop succeeds. -/
theorem label_replication {α : Type} (X : List (List (List α))) (y : List ℕ)
    (size step : ℤ) (X' : List (List (List α))) (y' : List ℕ)
    (h : crop_X_y X y size step = .ok (X', y'))
    (hy : y.length = X.length)
    (t j : ℕ) (ht : t < y.length)
    (hj : j < (cropCount (dim3 X) size step).toNat) :
    y'[t * (cropCount (dim3 X) size step).toNat + j]? = y[t]? := by
  have h2 := (crop_X_y_ok h).2
  simp only [crop_y] at h2
  rw [show y' = ((X', y').2 : List ℕ) from rfl, h2, ← hy, List.take_length]
  exact flatMap_replicate_getElem y (cropCount (dim3 X) size step).toNat t j ht hj

/-- Witness for C4: two one-channel trials of length 3, size 2, stride 1
(two crops per trial); the label of crop 0 of trial 1 is trial 1's label. -/
theorem label_replication_witness :
    (crop_X_y [[[(1 : ℤ), 2, 3]], [[4, 5, 6]]] [7, 9] 2 1 =
        .ok ([[[(1 : ℤ), 2]], [[2, 3]], [[4, 5]], [[5, 6]]], [7, 7, 9, 9])
      ∧ [7, 9].length = ([[[(1 : ℤ), 2, 3]], [[4, 5, 6]]] : List _).length
      ∧ 1 < [7, 9].length
      ∧ 0 < (cropCount (dim3 [[[(1 : ℤ), 2, 3]], [[4, 5, 6]]]) 2 1).toNat)
    ∧ [7, 7, 9, 9][1 * (cropCount (dim3 [[[(1 : ℤ), 2, 3]], [[4, 5, 6]]]) 2 1).toNat + 0]? =
        [7, 9][1]? :=
  ⟨⟨rfl, by decide, by decide, by decide⟩,
   label_replication [[[(1 : ℤ), 2, 3]], [[4, 5, 6]]] [7, 9] 2 1
     [[[(1 : ℤ), 2]], [[2, 3]], [[4, 5]], [[5, 6]]] [7, 7, 9, 9]
     rfl (by decide) 1 0 (by decide) (by decide)⟩

lemma cropCount_nonpos {w size step : ℤ} (hstep : 0 < step) (hws : w < size) :
    cropCount w size step ≤ 0 := by
  have hb := ceilDivInt_bounds (w - size + 1) step hstep
  unfold cropCount
  nlinarith [hb.1, hb.2]

lemma cropCount_pos {w size step : ℤ} (hstep : 0 < step) (hws : size ≤ w) :
    1 ≤ cropCount w size step := by
  have hb := ceilDivInt_bounds (w - size + 1) step hstep
  unfold cropCount
  nlinarith [hb.1, hb.2]

/-- Counterexample to C6: a window size exceeding the trial length does not
raise any error — the bulk crop returns normally with empty output
(`n_crops = 0` for a length-10 trial, window 11, stride 1). -/
theorem no_invalid_geometry_counterexample :
    crop_X_y [[[(0 : ℤ), 1, 2, 3, 4, 5, 6, 7, 8, 9]]] [5] 11 1 = .ok ([], [])
    ∧ ∀ e : PyError,
        crop_X_y [[[(0 : ℤ), 1, 2, 3, 4, 5, 6, 7, 8, 9]]] [5] 11 1 ≠ .error e := by
  refine ⟨rfl, ?_⟩
  intro e h
  rw [show crop_X_y [[[(0 : ℤ), 1, 2, 3, 4, 5, 6, 7, 8, 9]]] [5] 11 1
      = .ok ([], []) from rfl] at h
  cases h

lemma crop_ok_of_valid {α : Type} (X : List (List (List α))) (y : List ℕ)
    (L : ℕ) (size step : ℤ)
    (hsize : 0 < size) (hsizeL : size ≤ (L : ℤ)) (hstep : 0 < step)
    (hX : ∀ tr ∈ X, tr ≠ [] ∧ ∀ ch ∈ tr, ch.length = L)
    (hlen : X.length ≤ y.length) :
    ∃ out, crop_X_y X y size step = .ok out := by
  unfold crop_X_y
  simp only
  rw [if_neg (by omega : ¬ step = 0)]
  have hnn : 0 ≤ cropCount (dim3 X : ℤ) size step * (X.length : ℤ) := by
    rcases X with _ | ⟨tr, rest⟩
    · simp
    · rcases hX tr (by simp) with ⟨htr, hch⟩
      rcases tr with _ | ⟨ch, chs⟩
      · exact absurd rfl htr
      · have hdim : dim3 ((ch :: chs) :: rest) = L := hch ch (by simp)
        have h1 : 1 ≤ cropCount (dim3 ((ch :: chs) :: rest) : ℤ) size step := by
          rw [hdim]
          exact cropCount_pos hstep hsizeL
        positivity
  rw [if_neg (by push_neg; constructor <;> omega)]
  rw [if_neg (by intro hcon; omega)]
  rw [if_neg (by omega)]
  exact ⟨_, rfl⟩

/-- C6 (amended).  The crop-count computation is entirely unvalidated: no
`InvalidGeometry` error exists.  For `step > 0` and window exceeding the
trial length, the bulk crop either returns normally with an empty result
(when the count `ceil((w-size+1)/step)` is 0, or there are no trials) or
surfaces as numpy's negative-allocation `ValueError`; `step = 0` surfaces
as a `ZeroDivisionError`; and every *valid* geometry (`0 < size ≤ L`,
`0 < step`, nonempty channel lists of uniform length `L`, labels covering
the trials) returns normally. -/
theorem crop_no_validation {α : Type} :
    (∀ (X : List (List (List α))) (y : List ℕ) (size step : ℤ),
      0 < step → (dim3 X : ℤ) < size → X.length ≤ y.length →
      (0 ≤ cropCount (dim3 X : ℤ) size step ∨ X = [] →
        crop_X_y X y size step = .ok ([], []))
      ∧ (cropCount (dim3 X : ℤ) size step < 0 → X ≠ [] →
        crop_X_y X y size step = .error .negativeDimensions))
    ∧ (∀ (X : List (List (List α))) (y : List ℕ) (size : ℤ),
      crop_X_y X y size 0 = .error .zeroDivision)
    ∧ (∀ (X : List (List (List α))) (y : List ℕ) (L : ℕ) (size step : ℤ),
      0 < size → size ≤ (L : ℤ) → 0 < step →
      (∀ tr ∈ X, tr ≠ [] ∧ ∀ ch ∈ tr, ch.length = L) →
      X.length ≤ y.length →
      ∃ out, crop_X_y X y size step = .ok out) := by
  refine ⟨?_, ?_, ?_⟩
  · intro X y size step hstep hws hlen
    have hn : cropCount (dim3 X : ℤ) size step ≤ 0 := cropCount_nonpos hstep hws
    have hsize : (0 : ℤ) ≤ size := le_of_lt (lt_of_le_of_lt (Int.ofNat_nonneg _) hws)
    constructor
    · intro hok
      unfold crop_X_y
      simp only
      rw [if_neg (by omega : ¬ step = 0)]
      have hzero : cropCount (dim3 X : ℤ) size step * (X.length : ℤ) = 0
          ∨ X.length = 0 := by
        rcases hok with h0 | h0
        · left
          have : cropCount (dim3 X : ℤ) size step = 0 := le_antisymm hn h0
          rw [this, zero_mul]
        · right
          rw [h0, List.length_nil]
      rw [if_neg (by rcases hzero with h0 | h0 <;> simp [h0] <;> omega)]
      rw [if_neg (by intro hcon; omega)]
      rw [if_neg (by omega)]
      rcases hok with h0 | h0
      · have hzn : (cropCount (dim3 X : ℤ) size step).toNat = 0 := by omega
        simp [hzn, crop_X, crop_y]
      · subst h0
        simp
    · intro hneg hne
      unfold crop_X_y
      simp only
      rw [if_neg (by omega : ¬ step = 0)]
      have hd : 1 ≤ (X.length : ℤ) := by
        have : X.length ≠ 0 := fun hc => hne (List.length_eq_zero.mp hc)
        omega
      rw [if_pos (Or.inl (by nlinarith))]
  · intro X y size
    unfold crop_X_y
    simp
  · intro X y L size step hsize hsizeL hstep hX hlen
    exact crop_ok_of_valid X y L size step hsize hsizeL hstep hX hlen

/-- Witness for C6 at concrete inputs: window 5 on a length-3 trial returns
the empty crop set (count 0), and the valid geometry (3, 2, 1) on the same
trial succeeds. -/
theorem crop_no_validation_witness :
    ((0 : ℤ) < 2 ∧ (dim3 [[[(0 : ℤ), 1, 2]]] : ℤ) < 5
      ∧ ([[[(0 : ℤ), 1, 2]]] : List (List (List ℤ))).length ≤ [5].length
      ∧ 0 ≤ cropCount (dim3 [[[(0 : ℤ), 1, 2]]] : ℤ) 5 2)
    ∧ crop_X_y [[[(0 : ℤ), 1, 2]]] [5] 5 2 = .ok ([], []) :=
  ⟨⟨by decide, by decide, by decide, by decide⟩,
   (crop_no_validation.1 [[[(0 : ℤ), 1, 2]]] [5] 5 2 (by decide) (by decide)
     (by decide)).1 (Or.inl (by decide))⟩

lemma pySlice_eq {β : Type} (l : List β) (i j : ℤ) (hi0 : 0 ≤ i)
    (hin : i ≤ (l.length : ℤ)) (hj0 : 0 ≤ j) (hjn : j ≤ (l.length : ℤ)) :
    pySlice l i j = (l.take j.toNat).drop i.toNat := by
  unfold pySlice
  simp only
  rw [if_neg (by omega), if_neg (by omega)]
  have h1 : min i (l.length : ℤ) = i := by omega
  have h2 : min j (l.length : ℤ) = j := by omega
  rw [h1, h2]

lemma pySlice_head {β : Type} (l : List β) (k : ℕ) (hk : k ≤ l.length) :
    pySlice l 0 (k : ℤ) = l.take k := by
  rw [pySlice_eq l 0 (k : ℤ) le_rfl (by omega) (by omega) (by omega)]
  simp

lemma pySlice_mid {β : Type} (l : List β) (a b : ℕ) (hab : a + b ≤ l.length) :
    pySlice l (a : ℤ) ((a : ℤ) + (b : ℤ)) = (l.drop a).take b := by
  have hsum : ((a : ℤ) + (b : ℤ)) = ((a + b : ℕ) : ℤ) := by push_cast; ring
  rw [hsum, pySlice_eq l (a : ℤ) ((a + b : ℕ) : ℤ) (by omega) (by omega) (by omega)
      (by omega)]
  simp only [Int.toNat_natCast]
  rw [List.drop_take]
  congr 1
  omega

lemma pySlice_tail {β : Type} (l : List β) (t : ℕ) (ht0 : 0 < t)
    (htn : t ≤ l.length) :
    pySlice l (-(t : ℤ)) (l.length : ℤ) = l.drop (l.length - t) := by
  unfold pySlice
  simp only
  rw [if_pos (by omega), if_neg (by omega)]
  have h1 : max 0 ((l.length : ℤ) + -(t : ℤ)) = ((l.length - t : ℕ) : ℤ) := by omega
  have h2 : min ((l.length : ℤ)) ((l.length : ℤ)) = ((l.length : ℕ) : ℤ) := min_self _
  rw [h1, h2]
  simp only [Int.toNat_natCast]
  rw [List.take_length]

/-- The full computation of `from_epo_to_dataset` under in-range arguments
(shared by the split theorems): head windows `[0, train_len - valid_len)`
and `[train_len - valid_len, train_len)`, tail window of the last
`test_len` trials, no further checks beyond the constructor asserts. -/
lemma from_epo_spec {α : Type} (X : List (List (List α))) (y : List ℕ)
    (train_len test_len valid_len : ℕ) (frac : ℚ)
    (hXy : X.length = y.length)
    (hvalid : (valid_len : ℤ) = ⌊(train_len : ℚ) * frac⌋)
    (hvt : valid_len ≤ train_len)
    (htest0 : 0 < test_len) (htest : test_len ≤ y.length)
    (htrain : train_len ≤ y.length) :
    from_epo_to_dataset X y train_len test_len frac = .ok
      ⟨X.take (train_len - valid_len), y.take (train_len - valid_len),
       (X.drop (train_len - valid_len)).take valid_len,
       (y.drop (train_len - valid_len)).take valid_len,
       X.drop (X.length - test_len), y.drop (y.length - test_len)⟩ := by
  unfold from_epo_to_dataset
  simp only
  rw [← hvalid]
  have htr : (train_len : ℤ) - (valid_len : ℤ) = ((train_len - valid_len : ℕ) : ℤ) := by
    omega
  rw [htr]
  rw [pySlice_head X _ (by omega), pySlice_head y _ (by omega),
      pySlice_mid X _ _ (by omega), pySlice_mid y _ _ (by omega),
      pySlice_tail X _ htest0 (by omega), pySlice_tail y _ htest0 htest]
  unfold mkEEGDataset
  rw [if_pos (by
    refine ⟨?_, ?_, ?_⟩ <;> simp [List.length_take, List.length_drop, hXy])]

/-- Counterexample to C5: with `testCount = 0` the code's tail slice
`indexes[-0:]` is `indexes[0:]`, so the *entire* trial stream becomes the
test partition instead of the last 0 trials: on three trials with
`trainCount = 2, validFrac = 0`, the returned test partition is all three
trials, which is not the empty "last 0 trials" the claim assigns. -/
theorem split_test_zero_counterexample :
    from_epo_to_dataset [[[(0 : ℤ)]], [[1]], [[2]]] [0, 1, 2] 2 0 0 =
      .ok ⟨[[[(0 : ℤ)]], [[1]]], [0, 1], [], [],
           [[[(0 : ℤ)]], [[1]], [[2]]], [0, 1, 2]⟩
    ∧ ([[[(0 : ℤ)]], [[1]], [[2]]] : List (List (List ℤ))) ≠ [] := by
  constructor
  · unfold from_epo_to_dataset
    simp only [mul_zero, Int.floor_zero]
    norm_num
    rfl
  · simp

/-- C5 (amended).  Temporal split arithmetic for `0 < testCount ≤ total`,
`trainCount ≤ total`, `0 ≤ validFrac ≤ 1` (at `testCount = 0` the code's
`[-0:]` tail slice returns the whole stream, see the counterexample):
order is preserved (all partitions are contiguous `take`/`drop` windows of
the raw stream), `validCount = floor(trainCount * validFrac)` never exceeds
`trainCount`, the adjusted train window is `[0, trainCount - validCount)`,
the valid window is the next `validCount` trials, and the test partition is
the last `testCount` trials of the tail. -/
theorem split_arithmetic {α : Type} (X : List (List (List α))) (y : List ℕ)
    (train_len test_len valid_len : ℕ) (frac : ℚ)
    (hXy : X.length = y.length)
    (hfrac0 : 0 ≤ frac) (hfrac1 : frac ≤ 1)
    (hvalid : (valid_len : ℤ) = ⌊(train_len : ℚ) * frac⌋)
    (htest0 : 0 < test_len) (htest : test_len ≤ y.length)
    (htrain : train_len ≤ y.length) :
    valid_len ≤ train_len
    ∧ from_epo_to_dataset X y train_len test_len frac = .ok
      ⟨X.take (train_len - valid_len), y.take (train_len - valid_len),
       (X.drop (train_len - valid_len)).take valid_len,
       (y.drop (train_len - valid_len)).take valid_len,
       X.drop (X.length - test_len), y.drop (y.length - test_len)⟩ := by
  have h1 : (train_len : ℚ) * frac ≤ (train_len : ℚ) :=
    mul_le_of_le_one_right (by positivity) hfrac1
  have h2 : ⌊(train_len : ℚ) * frac⌋ ≤ (train_len : ℤ) := by
    calc ⌊(train_len : ℚ) * frac⌋ ≤ ⌊(train_len : ℚ)⌋ := Int.floor_le_floor h1
    _ = (train_len : ℤ) := Int.floor_natCast train_len
  have hvt : valid_len ≤ train_len := by omega
  exact ⟨hvt, from_epo_spec X y train_len test_len valid_len frac hXy hvalid hvt
    htest0 htest htrain⟩

/-- Witness for C5 at the spec's Scenario B: 105 raw trials,
`trainCount = 100`, `validFrac = 1/10`, `testCount = 5` gives
`validCount = 10`, adjusted train 90: trials `[0:90]` to train, `[90:100]`
to valid, last 5 to test. -/
theorem split_arithmetic_witness :
    (((List.range 105).map (fun (i : ℕ) => [[(i : ℤ)]])).length = (List.range 105).length
      ∧ (0 : ℚ) ≤ 1 / 10 ∧ (1 / 10 : ℚ) ≤ 1
      ∧ ((10 : ℕ) : ℤ) = ⌊((100 : ℕ) : ℚ) * (1 / 10)⌋
      ∧ 0 < 5 ∧ 5 ≤ (List.range 105).length ∧ 100 ≤ (List.range 105).length)
    ∧ (10 ≤ 100
    ∧ from_epo_to_dataset ((List.range 105).map (fun (i : ℕ) => [[(i : ℤ)]]))
        (List.range 105) 100 5 (1 / 10) = .ok
      ⟨((List.range 105).map (fun (i : ℕ) => [[(i : ℤ)]])).take (100 - 10),
       (List.range 105).take (100 - 10),
       (((List.range 105).map (fun (i : ℕ) => [[(i : ℤ)]])).drop (100 - 10)).take 10,
       ((List.range 105).drop (100 - 10)).take 10,
       ((List.range 105).map (fun (i : ℕ) => [[(i : ℤ)]])).drop
         (((List.range 105).map (fun (i : ℕ) => [[(i : ℤ)]])).length - 5),
       (List.range 105).drop ((List.range 105).length - 5)⟩) :=
  ⟨⟨by rw [List.length_map], by norm_num, by norm_num, by norm_num, by norm_num,
    by simp, by simp⟩,
   split_arithmetic ((List.range 105).map (fun (i : ℕ) => [[(i : ℤ)]])) (List.range 105)
     100 5 10 (1 / 10) (by rw [List.length_map]) (by norm_num) (by norm_num)
     (by norm_num) (by norm_num) (by simp) (by simp)⟩

/-- Counterexample to C7: an overlapping split does not raise.  Ten trials,
`trainCount = 8`, `validFrac = 0`, `testCount = 5`: the head window `[0,8)`
and the tail window `[5,10)` overlap, yet the call returns normally, with
trials 5, 6, 7 in both the train and the test partitions, instead of
raising `InvalidSplit`. -/
theorem split_overlap_counterexample :
    from_epo_to_dataset
      [[[(0 : ℤ)]], [[1]], [[2]], [[3]], [[4]], [[5]], [[6]], [[7]], [[8]], [[9]]]
      [0, 1, 2, 3, 4, 5, 6, 7, 8, 9] 8 5 0 =
      .ok ⟨[[[(0 : ℤ)]], [[1]], [[2]], [[3]], [[4]], [[5]], [[6]], [[7]]],
           [0, 1, 2, 3, 4, 5, 6, 7], [], [],
           [[[(5 : ℤ)]], [[6]], [[7]], [[8]], [[9]]], [5, 6, 7, 8, 9]⟩
    ∧ ∀ e : PyError,
      from_epo_to_dataset
        [[[(0 : ℤ)]], [[1]], [[2]], [[3]], [[4]], [[5]], [[6]], [[7]], [[8]], [[9]]]
        [0, 1, 2, 3, 4, 5, 6, 7, 8, 9] 8 5 0 ≠ .error e := by
  have h : from_epo_to_dataset
      [[[(0 : ℤ)]], [[1]], [[2]], [[3]], [[4]], [[5]], [[6]], [[7]], [[8]], [[9]]]
      [0, 1, 2, 3, 4, 5, 6, 7, 8, 9] 8 5 0 =
      .ok ⟨[[[(0 : ℤ)]], [[1]], [[2]], [[3]], [[4]], [[5]], [[6]], [[7]]],
           [0, 1, 2, 3, 4, 5, 6, 7], [], [],
           [[[(5 : ℤ)]], [[6]], [[7]], [[8]], [[9]]], [5, 6, 7, 8, 9]⟩ := by
    unfold from_epo_to_dataset
    simp only [mul_zero, Int.floor_zero]
    norm_num
    rfl
  refine ⟨h, ?_⟩
  intro e he
  rw [h] at he
  cases he

/-- C7 (amended).  No overlap detection exists: whenever the head windows
(train and valid, jointly `[0, trainCount)`) and the tail window (the last
`testCount` trials) overlap — i.e. `total < trainCount + testCount` — the
split still returns normally, and the raw trial at position
`total - testCount` (the first test trial) lies inside the head window as
well, so the partitions silently share trials; no `InvalidSplit` error is
ever raised. -/
theorem split_no_overlap_check {α : Type} (X : List (List (List α))) (y : List ℕ)
    (train_len test_len valid_len : ℕ) (frac : ℚ)
    (hXy : X.length = y.length)
    (hfrac0 : 0 ≤ frac) (hfrac1 : frac ≤ 1)
    (hvalid : (valid_len : ℤ) = ⌊(train_len : ℚ) * frac⌋)
    (htest0 : 0 < test_len) (htest : test_len ≤ y.length)
    (htrain : train_len ≤ y.length)
    (hoverlap : y.length < train_len + test_len) :
    ∃ ds, from_epo_to_dataset X y train_len test_len frac = .ok ds
      ∧ y.length - test_len < train_len
      ∧ (ds.X_train ++ ds.X_valid)[y.length - test_len]? = X[y.length - test_len]?
      ∧ ds.X_test[0]? = X[y.length - test_len]? := by
  have h1 : (train_len : ℚ) * frac ≤ (train_len : ℚ) :=
    mul_le_of_le_one_right (by positivity) hfrac1
  have h2 : ⌊(train_len : ℚ) * frac⌋ ≤ (train_len : ℤ) := by
    calc ⌊(train_len : ℚ) * frac⌋ ≤ ⌊(train_len : ℚ)⌋ := Int.floor_le_floor h1
    _ = (train_len : ℤ) := Int.floor_natCast train_len
  have hvt : valid_len ≤ train_len := by omega
  have hpos : y.length - test_len < train_len := by omega
  refine ⟨_, from_epo_spec X y train_len test_len valid_len frac hXy hvalid hvt
    htest0 htest htrain, hpos, ?_, ?_⟩
  · have hjoin : X.take (train_len - valid_len)
        ++ (X.drop (train_len - valid_len)).take valid_len = X.take train_len := by
      rw [← List.take_add]
      congr 1
      omega
    simp only [hjoin]
    exact List.getElem?_take_of_lt hpos
  · simp only [List.getElem?_drop]
    congr 1
    omega

/-- Witness for C7: 10 raw trials, `trainCount = 8`, `validFrac = 0`,
`testCount = 5` — head window `[0,8)` and tail window `[5,10)` overlap and
the split succeeds anyway, sharing trial 5. -/
theorem split_no_overlap_check_witness :
    (((List.range 10).map (fun (i : ℕ) => [[(i : ℤ)]])).length = (List.range 10).length
      ∧ (0 : ℚ) ≤ 0 ∧ (0 : ℚ) ≤ 1
      ∧ ((0 : ℕ) : ℤ) = ⌊((8 : ℕ) : ℚ) * 0⌋
      ∧ 0 < 5 ∧ 5 ≤ (List.range 10).length ∧ 8 ≤ (List.range 10).length
      ∧ (List.range 10).length < 8 + 5)
    ∧ (∃ ds, from_epo_to_dataset ((List.range 10).map (fun (i : ℕ) => [[(i : ℤ)]]))
        (List.range 10) 8 5 0 = .ok ds
      ∧ (List.range 10).length - 5 < 8
      ∧ (ds.X_train ++ ds.X_valid)[(List.range 10).length - 5]? =
          ((List.range 10).map (fun (i : ℕ) => [[(i : ℤ)]]))[(List.range 10).length - 5]?
      ∧ ds.X_test[0]? =
          ((List.range 10).map (fun (i : ℕ) => [[(i : ℤ)]]))[(List.range 10).length - 5]?) :=
  ⟨⟨by rw [List.length_map], by norm_num, by norm_num, by simp, by norm_num,
    by simp, by simp, by simp⟩,
   split_no_overlap_check ((List.range 10).map (fun (i : ℕ) => [[(i : ℤ)]]))
     (List.range 10) 8 5 0 0 (by rw [List.length_map]) (by norm_num) (by norm_num)
     (by simp) (by norm_num) (by simp) (by simp) (by simp)⟩

/-- C9.  Class-count inference asymmetry: with the class count omitted,
`to_categorical` infers `n_classes` as the number of distinct labels in the
*train* partition only — the result is the same as passing that count
explicitly, is unchanged under any replacement of the valid and test
labels, and all three partitions are one-hot encoded against it (every
output row has that length). -/
theorem to_categorical_train_only (y_train y_valid y_test y_valid2 y_test2 : List ℕ) :
    to_categorical_ds y_train y_valid y_test none =
      to_categorical_ds y_train y_valid y_test (some y_train.dedup.length)
    ∧ (to_categorical_ds y_train y_valid y_test none).1 =
      (to_categorical_ds y_train y_valid2 y_test2 none).1
    ∧ (∀ row ∈ (to_categorical_ds y_train y_valid y_test none).1,
        row.length = y_train.dedup.length)
    ∧ (∀ row ∈ (to_categorical_ds y_train y_valid y_test none).2.1,
        row.length = y_train.dedup.length)
    ∧ (∀ row ∈ (to_categorical_ds y_train y_valid y_test none).2.2,
        row.length = y_train.dedup.length) := by
  refine ⟨rfl, rfl, ?_, ?_, ?_⟩ <;>
  · intro row hrow
    rcases List.mem_map.mp hrow with ⟨lab, hlab, rfl⟩
    simp [oneHot]

lemma flatMap_eq_self {β : Type} (l : List β) (f : β → List β)
    (h : ∀ x ∈ l, f x = [x]) : l.flatMap f = l := by
  induction l with
  | nil => rfl
  | cons a tl ih =>
    rw [List.flatMap_cons, h a (List.mem_cons_self a tl),
        ih (fun x hx => h x (List.mem_cons_of_mem a hx))]
    rfl

lemma flatMap_length_const {β γ : Type} (l : List β) (f : β → List γ) (n : ℕ)
    (h : ∀ x ∈ l, (f x).length = n) : (l.flatMap f).length = n * l.length := by
  induction l with
  | nil => simp
  | cons a tl ih =>
    rw [List.flatMap_cons, List.length_append, h a (List.mem_cons_self a tl),
        ih (fun x hx => h x (List.mem_cons_of_mem a hx)), List.length_cons]
    ring

lemma crop_X_single {α : Type} (tr : List (List α)) (s st : ℕ)
    (h : ∀ ch ∈ tr, ch.length ≤ s) : crop_X tr 1 s st = [tr] := by
  unfold crop_X
  rw [show List.range 1 = [0] from rfl]
  simp only [List.map_cons, List.map_nil, Nat.zero_mul, List.drop_zero]
  congr 1
  calc tr.map (fun ch => ch.take s)
      = tr.map id := List.map_congr_left (fun ch hch => List.take_of_length_le (h ch hch))
    _ = tr := List.map_id tr

lemma crop_idem {α : Type} (X2 : List (List (List α))) (y2 : List ℕ)
    (size step : ℤ) (hsize : 0 < size) (hstep : 1 ≤ step)
    (hX : ∀ tr ∈ X2, tr ≠ [] ∧ ∀ ch ∈ tr, ch.length = size.toNat)
    (hy : y2.length = X2.length) :
    crop_X_y X2 y2 size step = .ok (X2, y2) := by
  cases X2 with
  | nil =>
    have hy0 : y2 = [] := List.length_eq_zero.mp (by simpa using hy)
    subst hy0
    unfold crop_X_y
    simp only
    rw [if_neg (by omega)]
    rw [if_neg (by push_neg; exact ⟨by simp, by omega⟩)]
    rw [if_neg (by simp)]
    rw [if_neg (by simp)]
    simp
  | cons tr rest =>
    obtain ⟨htrne, hch⟩ := hX tr (List.mem_cons_self tr rest)
    have hdim : dim3 (tr :: rest) = size.toNat := by
      cases tr with
      | nil => exact absurd rfl htrne
      | cons ch chs => exact hch ch (List.mem_cons_self ch chs)
    have hn : cropCount (dim3 (tr :: rest) : ℤ) size step = 1 := by
      rw [hdim]
      unfold cropCount
      rw [Int.toNat_of_nonneg (by omega : (0 : ℤ) ≤ size)]
      have heq : size - size + 1 = (1 : ℤ) := by ring
      rw [heq]
      have hb := ceilDivInt_bounds 1 step (by omega)
      nlinarith [hb.1, hb.2]
    unfold crop_X_y
    simp only
    rw [if_neg (by omega)]
    rw [hn]
    rw [if_neg (by push_neg; exact ⟨by positivity, by omega⟩)]
    rw [if_neg (by rintro ⟨hlt, -, -⟩; omega)]
    rw [if_neg (by omega)]
    have hA : (tr :: rest).flatMap
        (fun trial => crop_X trial (1 : ℤ).toNat size.toNat step.toNat) = tr :: rest := by
      apply flatMap_eq_self
      intro x hx
      exact crop_X_single x size.toNat step.toNat
        (fun ch hc => le_of_eq ((hX x hx).2 ch hc))
    have hB : (y2.take (tr :: rest).length).flatMap
        (fun lab => crop_y lab (1 : ℤ).toNat) = y2 := by
      rw [← hy, List.take_length]
      exact flatMap_eq_self y2 _ (fun x _ => rfl)
    rw [hA, hB]

lemma cropCount_fit {L sizeN stepN : ℕ} (hstep : 0 < stepN)
    {i : ℕ} (hi : i < (cropCount (L : ℤ) (sizeN : ℤ) (stepN : ℤ)).toNat) :
    i * stepN + sizeN ≤ L := by
  have hb := ceilDivInt_bounds ((L : ℤ) - (sizeN : ℤ) + 1) (stepN : ℤ)
    (by exact_mod_cast hstep)
  have hcc : cropCount (L : ℤ) (sizeN : ℤ) (stepN : ℤ)
      = ceilDivInt ((L : ℤ) - (sizeN : ℤ) + 1) (stepN : ℤ) := rfl
  rw [← hcc] at hb
  have hiZ : (i : ℤ) ≤ cropCount (L : ℤ) (sizeN : ℤ) (stepN : ℤ) - 1 := by omega
  have hmul := mul_le_mul_of_nonneg_right hiZ
    (show (0 : ℤ) ≤ (stepN : ℤ) by positivity)
  have hgoal : (i : ℤ) * (stepN : ℤ) + (sizeN : ℤ) ≤ (L : ℤ) := by
    nlinarith [hb.1, hb.2]
  exact_mod_cast hgoal

lemma crop_X_y_output_shape {α : Type} (X : List (List (List α))) (y : List ℕ)
    (L : ℕ) (size step : ℤ)
    (hsize : 0 < size) (hsizeL : size ≤ (L : ℤ)) (hstep : 0 < step)
    (hX : ∀ tr ∈ X, tr ≠ [] ∧ ∀ ch ∈ tr, ch.length = L)
    (hlen : X.length = y.length) :
    ∃ X2 y2, crop_X_y X y size step = .ok (X2, y2)
      ∧ (∀ win ∈ X2, win ≠ [] ∧ ∀ ch ∈ win, ch.length = size.toNat)
      ∧ X2.length = y2.length := by
  obtain ⟨out, hout⟩ :=
    crop_ok_of_valid X y L size step hsize hsizeL hstep hX (le_of_eq hlen)
  obtain ⟨hX2, hy2⟩ := crop_X_y_ok hout
  refine ⟨out.1, out.2, by rw [← hout], ?_, ?_⟩
  · intro win hwin
    rw [hX2] at hwin
    rcases List.mem_flatMap.mp hwin with ⟨tr, htr, hwtr⟩
    unfold crop_X at hwtr
    rcases List.mem_map.mp hwtr with ⟨i, hi, rfl⟩
    rcases hX tr htr with ⟨htrne, hch⟩
    constructor
    · simp only [ne_eq, List.map_eq_nil_iff]
      exact htrne
    · intro ch hchm
      rcases List.mem_map.mp hchm with ⟨ch0, hch0, rfl⟩
      have hiN : i < (cropCount (dim3 X : ℤ) size step).toNat := List.mem_range.mp hi
      have hdim : dim3 X = L := by
        cases X with
        | nil => cases htr
        | cons t0 r0 =>
          rcases hX t0 (List.mem_cons_self t0 r0) with ⟨ht0, hch0'⟩
          cases t0 with
          | nil => exact absurd rfl ht0
          | cons c0 cs0 => exact hch0' c0 (List.mem_cons_self c0 cs0)
      have hsz : (size.toNat : ℤ) = size := Int.toNat_of_nonneg (by omega)
      have hst : (0 : ℕ) < step.toNat := by omega
      have hfit : i * step.toNat + size.toNat ≤ L := by
        apply cropCount_fit hst
        have hcast : ((size.toNat : ℕ) : ℤ) = size := hsz
        have hcast2 : ((step.toNat : ℕ) : ℤ) = step := Int.toNat_of_nonneg (by omega)
        rw [hcast, hcast2, ← hdim]
        exact hiN
      simp only [List.length_take, List.length_drop, hch ch0 hch0]
      omega
  · rw [hX2, hy2]
    rw [flatMap_length_const _ _ (cropCount (dim3 X : ℤ) size step).toNat
        (fun x _ => crop_X_length x _ _ _),
        flatMap_length_const _ _ (cropCount (dim3 X : ℤ) size step).toNat
        (fun x _ => by simp [crop_y])]
    congr 1
    simp only [List.length_take]
    omega

/-- Counterexample to C8: cropping the same dataset twice (same geometry)
does not raise — the second call returns normally (here: with the data
unchanged), instead of failing with `AlreadyCropped`. -/
theorem double_crop_counterexample :
    ((make_crops (⟨[[[0, 1, 2, 3, 4]]], [0], [[[5, 6, 7, 8, 9]]], [1],
        [[[0, 2, 4, 6, 8]]], [0]⟩ : EEGDataset ℤ) (some 3) 2).bind
      (fun d => make_crops d (some 3) 2)) =
      .ok ⟨[[[0, 1, 2]], [[2, 3, 4]]], [0, 0], [[[5, 6, 7]], [[7, 8, 9]]], [1, 1],
           [[[0, 2, 4]], [[4, 6, 8]]], [0, 0]⟩
    ∧ ∀ e : PyError,
      ((make_crops (⟨[[[0, 1, 2, 3, 4]]], [0], [[[5, 6, 7, 8, 9]]], [1],
          [[[0, 2, 4, 6, 8]]], [0]⟩ : EEGDataset ℤ) (some 3) 2).bind
        (fun d => make_crops d (some 3) 2)) ≠ .error e := by
  refine ⟨rfl, ?_⟩
  intro e h
  rw [show ((make_crops (⟨[[[0, 1, 2, 3, 4]]], [0], [[[5, 6, 7, 8, 9]]], [1],
      [[[0, 2, 4, 6, 8]]], [0]⟩ : EEGDataset ℤ) (some 3) 2).bind
      (fun d => make_crops d (some 3) 2)) =
      .ok ⟨[[[0, 1, 2]], [[2, 3, 4]]], [0, 0], [[[5, 6, 7]], [[7, 8, 9]]], [1, 1],
           [[[0, 2, 4]], [[4, 6, 8]]], [0, 0]⟩ from rfl] at h
  cases h

/-- C8 (amended).  There is no double-cropping guard: after a first
`make_crops` succeeds, calling it again with the same geometry returns
normally (no `AlreadyCropped`); with stride ≥ 1 each length-`size` crop
yields exactly one window equal to itself, so the second call leaves the
dataset unchanged. -/
theorem double_crop_identity {α : Type} (ds : EEGDataset α) (size step : ℤ)
    (Ltr Lva Lte : ℕ) (hsize : 0 < size) (hstep : 1 ≤ step)
    (htr : ∀ tr ∈ ds.X_train, tr ≠ [] ∧ ∀ ch ∈ tr, ch.length = Ltr)
    (hva : ∀ tr ∈ ds.X_valid, tr ≠ [] ∧ ∀ ch ∈ tr, ch.length = Lva)
    (hte : ∀ tr ∈ ds.X_test, tr ≠ [] ∧ ∀ ch ∈ tr, ch.length = Lte)
    (hsztr : size ≤ (Ltr : ℤ)) (hszva : size ≤ (Lva : ℤ)) (hszte : size ≤ (Lte : ℤ))
    (hltr : ds.X_train.length = ds.y_train.length)
    (hlva : ds.X_valid.length = ds.y_valid.length)
    (hlte : ds.X_test.length = ds.y_test.length) :
    ∃ ds2, make_crops ds (some size) step = .ok ds2
      ∧ make_crops ds2 (some size) step = .ok ds2 := by
  obtain ⟨Xtr, ytr, e1, sh1, l1⟩ :=
    crop_X_y_output_shape ds.X_train ds.y_train Ltr size step hsize hsztr
      (by omega) htr hltr
  obtain ⟨Xva, yva, e2, sh2, l2⟩ :=
    crop_X_y_output_shape ds.X_valid ds.y_valid Lva size step hsize hszva
      (by omega) hva hlva
  obtain ⟨Xte, yte, e3, sh3, l3⟩ :=
    crop_X_y_output_shape ds.X_test ds.y_test Lte size step hsize hszte
      (by omega) hte hlte
  refine ⟨⟨Xtr, ytr, Xva, yva, Xte, yte⟩, ?_, ?_⟩
  · simp only [make_crops, e1, e2, e3]
  · simp only [make_crops,
      crop_idem Xtr ytr size step hsize hstep sh1 l1.symm,
      crop_idem Xva yva size step hsize hstep sh2 l2.symm,
      crop_idem Xte yte size step hsize hstep sh3 l3.symm]

/-- Witness for C8: a dataset with one trial of one length-5 channel per
partition, geometry (3, 2): the first call crops, the second returns the
cropped dataset unchanged. -/
theorem double_crop_identity_witness :
    ((0 : ℤ) < 3 ∧ (1 : ℤ) ≤ 2
      ∧ (∀ tr ∈ (⟨[[[0, 1, 2, 3, 4]]], [0], [[[5, 6, 7, 8, 9]]], [1],
          [[[0, 2, 4, 6, 8]]], [0]⟩ : EEGDataset ℤ).X_train,
          tr ≠ [] ∧ ∀ ch ∈ tr, ch.length = 5))
    ∧ ∃ ds2, make_crops (⟨[[[0, 1, 2, 3, 4]]], [0], [[[5, 6, 7, 8, 9]]], [1],
        [[[0, 2, 4, 6, 8]]], [0]⟩ : EEGDataset ℤ) (some 3) 2 = .ok ds2
      ∧ make_crops ds2 (some 3) 2 = .ok ds2 :=
  ⟨⟨by decide, by decide, by decide⟩,
   double_crop_identity (⟨[[[0, 1, 2, 3, 4]]], [0], [[[5, 6, 7, 8, 9]]], [1],
      [[[0, 2, 4, 6, 8]]], [0]⟩ : EEGDataset ℤ) 3 2 5 5 5
     (by decide) (by decide) (by decide) (by decide) (by decide)
     (by decide) (by decide) (by decide) (by decide) (by decide) (by decide)⟩

lemma ceil_refills_succ (b q cpt : ℕ) (hcpt : 0 < cpt) (hq : q < b) :
    (b - q + cpt - 1) / cpt =
      (if b ≤ q + cpt then 0 else (b - (q + cpt) + cpt - 1) / cpt) + 1 := by
  by_cases hx : b ≤ q + cpt
  · rw [if_pos hx]
    have h1 : 1 * cpt ≤ b - q + cpt - 1 := by omega
    have h2 : b - q + cpt - 1 < (1 + 1) * cpt := by omega
    rw [Nat.div_eq_of_lt_le h1 h2]
  · rw [if_neg hx]
    have he : b - q + cpt - 1 = (b - (q + cpt) + cpt - 1) + cpt := by omega
    rw [he, Nat.add_div_right _ hcpt]

lemma unpack_append {α : Type} (s : GenState α) (hc : s.next_to_unpack ≠ 0)
    (hlt : s.next_to_unpack < s.indexes.length) :
    unpack_trial s = .ok { s with
      crop_stack_X := s.crop_stack_X ++ trialCropsX s (s.indexes.getD s.next_to_unpack 0),
      crop_stack_y := s.crop_stack_y ++ trialCropsY s (s.indexes.getD s.next_to_unpack 0),
      next_to_unpack := s.next_to_unpack + 1 } := by
  unfold unpack_trial
  rw [List.getElem?_eq_getElem hlt]
  simp only [trialCropsX, trialCropsY]
  rw [if_neg hc]
  rw [List.getD_eq_getElem s.indexes 0 hlt]

lemma unpack_replace {α : Type} (s : GenState α) (hc : s.next_to_unpack = 0)
    (hlt : s.next_to_unpack < s.indexes.length) :
    unpack_trial s = .ok { s with
      crop_stack_X := trialCropsX s (s.indexes.getD s.next_to_unpack 0),
      crop_stack_y := trialCropsY s (s.indexes.getD s.next_to_unpack 0),
      next_to_unpack := s.next_to_unpack + 1 } := by
  unfold unpack_trial
  rw [List.getElem?_eq_getElem hlt]
  simp only [trialCropsX, trialCropsY]
  rw [if_pos hc]
  rw [List.getD_eq_getElem s.indexes 0 hlt]

lemma dgK_of_append {α : Type} (s : GenState α) (t : ℕ) :
    dgK { s with crop_stack_X := s.crop_stack_X ++ trialCropsX s t,
                 crop_stack_y := s.crop_stack_y ++ trialCropsY s t,
                 next_to_unpack := s.next_to_unpack + 1 }
    = if s.batch_size ≤ s.crop_stack_y.length + s.n_crops_for_trial then 0
      else (s.batch_size - (s.crop_stack_y.length + s.n_crops_for_trial)
        + s.n_crops_for_trial - 1) / s.n_crops_for_trial := by
  unfold dgK
  simp only [trialCropsY, crop_y, List.length_append, List.length_replicate]
  rw [if_neg (show ¬ (s.next_to_unpack + 1 = 0) by omega)]

lemma refill_succ_step {α : Type} (s : GenState α) (f : ℕ)
    (hq : s.crop_stack_y.length < s.batch_size) (s1 : GenState α)
    (hu : unpack_trial s = .ok s1) :
    refill s (f + 1) = refill s1 f := by
  have hstep : refill s (f + 1) = if s.crop_stack_y.length < s.batch_size then
      match unpack_trial s with
      | .error e => .error e
      | .ok s2 => refill s2 f
    else .ok s := rfl
  rw [hstep, if_pos hq, hu]

lemma refill_append {α : Type} : ∀ (k : ℕ) (s : GenState α) (fuel : ℕ),
    0 < s.n_crops_for_trial → 1 ≤ s.next_to_unpack →
    k = dgK s → s.next_to_unpack + k ≤ s.indexes.length → k ≤ fuel →
    ∃ t, refill s fuel = .ok t
      ∧ t.crop_stack_X = s.crop_stack_X ++ (pendingTrials s k).flatMap (trialCropsX s)
      ∧ t.crop_stack_y = s.crop_stack_y ++ (pendingTrials s k).flatMap (trialCropsY s)
      ∧ t.next_to_unpack = s.next_to_unpack + k
      ∧ t.X = s.X ∧ t.y = s.y ∧ t.batch_size = s.batch_size
      ∧ t.n_classes = s.n_classes ∧ t.crop_sample_size = s.crop_sample_size
      ∧ t.crop_step = s.crop_step ∧ t.n_crops_for_trial = s.n_crops_for_trial
      ∧ t.shuffle = s.shuffle ∧ t.indexes = s.indexes := by
  intro k
  induction k with
  | zero =>
    intro s fuel hcpt hc hk henough hfuel
    have hq : s.batch_size ≤ s.crop_stack_y.length := by
      by_contra hq
      push_neg at hq
      unfold dgK at hk
      rw [if_neg (by omega), if_neg (by omega)] at hk
      have h1 : 0 < (s.batch_size - s.crop_stack_y.length + s.n_crops_for_trial - 1)
          / s.n_crops_for_trial := Nat.div_pos (by omega) hcpt
      omega
    have hres : refill s fuel = .ok s := by
      cases fuel with
      | zero =>
        unfold refill
        rw [if_neg (by omega)]
      | succ f =>
        unfold refill
        rw [if_neg (by omega)]
    exact ⟨s, hres, by simp [pendingTrials], by simp [pendingTrials], rfl, rfl, rfl,
      rfl, rfl, rfl, rfl, rfl, rfl, rfl⟩
  | succ k2 ih =>
    intro s fuel hcpt hc hk henough hfuel
    have hq : s.crop_stack_y.length < s.batch_size := by
      by_contra hq
      push_neg at hq
      unfold dgK at hk
      rw [if_pos hq] at hk
      omega
    cases fuel with
    | zero => omega
    | succ f =>
      have hclt : s.next_to_unpack < s.indexes.length := by omega
      have hky : k2 + 1 = (s.batch_size - s.crop_stack_y.length
          + s.n_crops_for_trial - 1) / s.n_crops_for_trial := by
        unfold dgK at hk
        rw [if_neg (by omega), if_neg (by omega)] at hk
        exact hk
      have hk2 : k2 = if s.batch_size ≤ s.crop_stack_y.length + s.n_crops_for_trial
          then 0
          else (s.batch_size - (s.crop_stack_y.length + s.n_crops_for_trial)
            + s.n_crops_for_trial - 1) / s.n_crops_for_trial :=
        Nat.add_right_cancel (hky.trans
          (ceil_refills_succ s.batch_size s.crop_stack_y.length s.n_crops_for_trial hcpt hq))
      have hu := unpack_append s (by omega) hclt
      have hstep := refill_succ_step s f hq _ hu
      obtain ⟨t, ht, hcx, hcy, hcur, hfX, hfy, hfb, hfnc, hfcss, hfcst, hfcpt, hfsh, hfidx⟩ :=
        ih { s with
            crop_stack_X := s.crop_stack_X ++ trialCropsX s (s.indexes.getD s.next_to_unpack 0),
            crop_stack_y := s.crop_stack_y ++ trialCropsY s (s.indexes.getD s.next_to_unpack 0),
            next_to_unpack := s.next_to_unpack + 1 } f
          hcpt (by show 1 ≤ s.next_to_unpack + 1; omega)
          (hk2.trans (dgK_of_append s _).symm)
          (by show s.next_to_unpack + 1 + k2 ≤ s.indexes.length; omega)
          (by omega)
      have hsplit : pendingTrials s (k2 + 1)
          = s.indexes.getD s.next_to_unpack 0
            :: ((s.indexes.drop (s.next_to_unpack + 1)).take k2) := by
        unfold pendingTrials
        rw [List.drop_eq_getElem_cons hclt, List.take_succ_cons,
            List.getD_eq_getElem s.indexes 0 hclt]
      refine ⟨t, hstep.trans ht, ?_, ?_, ?_, hfX, hfy, hfb, hfnc, hfcss, hfcst,
        hfcpt, hfsh, hfidx⟩
      · rw [hcx, hsplit]
        show (s.crop_stack_X ++ trialCropsX s (s.indexes.getD s.next_to_unpack 0))
            ++ ((s.indexes.drop (s.next_to_unpack + 1)).take k2).flatMap (trialCropsX s)
          = s.crop_stack_X ++ (s.indexes.getD s.next_to_unpack 0
              :: (s.indexes.drop (s.next_to_unpack + 1)).take k2).flatMap (trialCropsX s)
        rw [List.flatMap_cons, List.append_assoc]
      · rw [hcy, hsplit]
        show (s.crop_stack_y ++ trialCropsY s (s.indexes.getD s.next_to_unpack 0))
            ++ ((s.indexes.drop (s.next_to_unpack + 1)).take k2).flatMap (trialCropsY s)
          = s.crop_stack_y ++ (s.indexes.getD s.next_to_unpack 0
              :: (s.indexes.drop (s.next_to_unpack + 1)).take k2).flatMap (trialCropsY s)
        rw [List.flatMap_cons, List.append_assoc]
      · rw [hcur]
        show s.next_to_unpack + 1 + k2 = s.next_to_unpack + (k2 + 1)
        omega

lemma ceil_div_bounds (x cpt : ℕ) (hcpt : 0 < cpt) (hx : 0 < x) :
    ((x + cpt - 1) / cpt - 1) * cpt < x ∧ x ≤ ((x + cpt - 1) / cpt) * cpt := by
  have h1 : (x + cpt - 1) / cpt * cpt ≤ x + cpt - 1 := Nat.div_mul_le_self _ _
  have h2 : x + cpt - 1 < ((x + cpt - 1) / cpt + 1) * cpt := by
    rw [← Nat.div_lt_iff_lt_mul hcpt]
    omega
  rw [Nat.add_mul, one_mul] at h2
  have hs : ((x + cpt - 1) / cpt - 1) * cpt = (x + cpt - 1) / cpt * cpt - cpt := by
    rw [Nat.sub_mul, one_mul]
  rw [hs]
  generalize (x + cpt - 1) / cpt * cpt = A at h1 h2 ⊢
  omega

lemma dgK_of_replace {α : Type} (s : GenState α) (t : ℕ) :
    dgK { s with crop_stack_X := trialCropsX s t,
                 crop_stack_y := trialCropsY s t,
                 next_to_unpack := s.next_to_unpack + 1 }
    = if s.batch_size ≤ s.n_crops_for_trial then 0
      else (s.batch_size - s.n_crops_for_trial
        + s.n_crops_for_trial - 1) / s.n_crops_for_trial := by
  unfold dgK
  simp only [trialCropsY, crop_y, List.length_replicate]
  rw [if_neg (show ¬ (s.next_to_unpack + 1 = 0) by omega)]

/-- C2 (amended).  One `getBatch` request: while the crop stacks hold fewer
than `batch_size` labels, the batcher crops the trial at
`trialOrder[cursor]` and advances the cursor — *appending* the crops and
replicated labels when the cursor is nonzero, but *recreating* the stacks
from that trial (discarding any leftover crops of the previous epoch) on
the first refill after an epoch reset (cursor 0).  It then removes and
returns exactly the first `batch_size` crops and labels in FIFO order,
retains the remainder, inserts a singleton channel axis into the returned
`X`, and one-hot encodes the returned labels against `n_classes`.  The
number of trials cropped is 0 iff the stack already holds a batch, and
otherwise is the least count whose crops reach `batch_size`. -/
theorem data_generation_spec {α : Type} (s : GenState α)
    (hcpt : 0 < s.n_crops_for_trial)
    (henough : s.next_to_unpack + dgK s ≤ s.indexes.length) :
    ∃ XB yB t, data_generation s = .ok (XB, yB, t)
      ∧ XB = ((dgBaseX s ++ (pendingTrials s (dgK s)).flatMap (trialCropsX s)).take
          s.batch_size).map (fun c => [c])
      ∧ yB = ((dgBaseY s ++ (pendingTrials s (dgK s)).flatMap (trialCropsY s)).take
          s.batch_size).map (fun lab => oneHot s.n_classes lab)
      ∧ t.crop_stack_X = (dgBaseX s
          ++ (pendingTrials s (dgK s)).flatMap (trialCropsX s)).drop s.batch_size
      ∧ t.crop_stack_y = (dgBaseY s
          ++ (pendingTrials s (dgK s)).flatMap (trialCropsY s)).drop s.batch_size
      ∧ t.next_to_unpack = s.next_to_unpack + dgK s
      ∧ t.X = s.X ∧ t.y = s.y ∧ t.batch_size = s.batch_size
      ∧ t.indexes = s.indexes ∧ t.n_crops_for_trial = s.n_crops_for_trial
      ∧ (dgK s = 0 ↔ s.batch_size ≤ s.crop_stack_y.length)
      ∧ (0 < dgK s →
          (dgBaseY s).length + (dgK s - 1) * s.n_crops_for_trial < s.batch_size
          ∧ s.batch_size ≤ (dgBaseY s).length + dgK s * s.n_crops_for_trial) := by
  have hiff : dgK s = 0 ↔ s.batch_size ≤ s.crop_stack_y.length := by
    constructor
    · intro h0
      by_contra hq
      push_neg at hq
      unfold dgK at h0
      rw [if_neg (by omega)] at h0
      by_cases hc : s.next_to_unpack = 0
      · rw [if_pos hc] at h0
        have := Nat.div_pos (show s.n_crops_for_trial
            ≤ s.batch_size + s.n_crops_for_trial - 1 by omega) hcpt
        omega
      · rw [if_neg hc] at h0
        have := Nat.div_pos (show s.n_crops_for_trial
            ≤ s.batch_size - s.crop_stack_y.length + s.n_crops_for_trial - 1 by omega) hcpt
        omega
    · intro hq
      unfold dgK
      rw [if_pos hq]
  by_cases hq : s.batch_size ≤ s.crop_stack_y.length
  · -- the stack already holds a batch: no refill happens
    have hk0 : dgK s = 0 := hiff.mpr hq
    have hbX : dgBaseX s = s.crop_stack_X := by
      unfold dgBaseX
      rw [if_neg (by rintro ⟨-, h2⟩; omega)]
    have hbY : dgBaseY s = s.crop_stack_y := by
      unfold dgBaseY
      rw [if_neg (by rintro ⟨-, h2⟩; omega)]
    have hres : refill s (s.indexes.length + 1) = .ok s := by
      have hstep : refill s (s.indexes.length + 1)
          = if s.crop_stack_y.length < s.batch_size then
              match unpack_trial s with
              | .error e => .error e
              | .ok s2 => refill s2 s.indexes.length
            else .ok s := rfl
      rw [hstep, if_neg (by omega)]
    have hdg : data_generation s = .ok
        ((s.crop_stack_X.take s.batch_size).map (fun c => [c]),
         (s.crop_stack_y.take s.batch_size).map (fun lab => oneHot s.n_classes lab),
         { s with crop_stack_X := s.crop_stack_X.drop s.batch_size,
                  crop_stack_y := s.crop_stack_y.drop s.batch_size }) := by
      unfold data_generation
      rw [hres]
    refine ⟨_, _, _, hdg, ?_, ?_, ?_, ?_, ?_, rfl, rfl, rfl, rfl, rfl, hiff,
      by intro h0; omega⟩ <;>
      simp [hk0, hbX, hbY, pendingTrials]
  · push_neg at hq
    by_cases hc0 : s.next_to_unpack = 0
    · -- refill with the cursor at 0: the first unpack recreates the stacks
      have hkval : dgK s = (s.batch_size + s.n_crops_for_trial - 1)
          / s.n_crops_for_trial := by
        unfold dgK
        rw [if_neg (by omega), if_pos hc0]
      have hk1 : 1 ≤ dgK s := by
        rw [hkval]
        exact (Nat.one_le_div_iff hcpt).mpr (by omega)
      have hclt : s.next_to_unpack < s.indexes.length := by omega
      have hu := unpack_replace s hc0 hclt
      have hstep := refill_succ_step s s.indexes.length hq _ hu
      have hsucc : dgK s = (if s.batch_size ≤ s.n_crops_for_trial then 0
          else (s.batch_size - s.n_crops_for_trial + s.n_crops_for_trial - 1)
            / s.n_crops_for_trial) + 1 := by
        have hcs := ceil_refills_succ s.batch_size 0 s.n_crops_for_trial hcpt (by omega)
        simpa using hkval.trans hcs
      obtain ⟨t, ht, hcx, hcy, hcur, hfX, hfy, hfb, hfnc, hfcss, hfcst, hfcpt,
          hfsh, hfidx⟩ :=
        refill_append (dgK s - 1)
          { s with
            crop_stack_X := trialCropsX s (s.indexes.getD s.next_to_unpack 0),
            crop_stack_y := trialCropsY s (s.indexes.getD s.next_to_unpack 0),
            next_to_unpack := s.next_to_unpack + 1 } s.indexes.length
          hcpt (by show 1 ≤ s.next_to_unpack + 1; omega)
          (by rw [dgK_of_replace s]; omega)
          (by show s.next_to_unpack + 1 + (dgK s - 1) ≤ s.indexes.length; omega)
          (by omega)
      have hres : refill s (s.indexes.length + 1) = .ok t := hstep.trans ht
      have hdg : data_generation s = .ok
          ((t.crop_stack_X.take s.batch_size).map (fun c => [c]),
           (t.crop_stack_y.take s.batch_size).map (fun lab => oneHot s.n_classes lab),
           { t with crop_stack_X := t.crop_stack_X.drop s.batch_size,
                    crop_stack_y := t.crop_stack_y.drop s.batch_size }) := by
        unfold data_generation
        rw [hres]
      have hbX : dgBaseX s = [] := by
        unfold dgBaseX
        rw [if_pos ⟨hc0, hq⟩]
      have hbY : dgBaseY s = [] := by
        unfold dgBaseY
        rw [if_pos ⟨hc0, hq⟩]
      have hpend : pendingTrials s (dgK s)
          = s.indexes.getD s.next_to_unpack 0
            :: ((s.indexes.drop (s.next_to_unpack + 1)).take (dgK s - 1)) := by
        unfold pendingTrials
        rw [List.drop_eq_getElem_cons hclt,
            List.getD_eq_getElem s.indexes 0 hclt]
        rw [show dgK s = (dgK s - 1) + 1 by omega, List.take_succ_cons]
        simp
      refine ⟨_, _, _, hdg, ?_, ?_, ?_, ?_, ?_, hfX, hfy, hfb, hfidx, hfcpt,
        hiff, ?_⟩
      · rw [hcx, hbX, hpend]
        show ((trialCropsX s (s.indexes.getD s.next_to_unpack 0)
            ++ ((s.indexes.drop (s.next_to_unpack + 1)).take (dgK s - 1)).flatMap
              (trialCropsX s)).take s.batch_size).map (fun c => [c]) = _
        rw [List.flatMap_cons]
        simp
      · rw [hcy, hbY, hpend]
        show ((trialCropsY s (s.indexes.getD s.next_to_unpack 0)
            ++ ((s.indexes.drop (s.next_to_unpack + 1)).take (dgK s - 1)).flatMap
              (trialCropsY s)).take s.batch_size).map (fun lab => oneHot s.n_classes lab) = _
        rw [List.flatMap_cons]
        simp
      · show t.crop_stack_X.drop s.batch_size = _
        rw [hcx, hbX, hpend]
        show (trialCropsX s (s.indexes.getD s.next_to_unpack 0)
            ++ ((s.indexes.drop (s.next_to_unpack + 1)).take (dgK s - 1)).flatMap
              (trialCropsX s)).drop s.batch_size = _
        rw [List.flatMap_cons]
        simp
      · show t.crop_stack_y.drop s.batch_size = _
        rw [hcy, hbY, hpend]
        show (trialCropsY s (s.indexes.getD s.next_to_unpack 0)
            ++ ((s.indexes.drop (s.next_to_unpack + 1)).take (dgK s - 1)).flatMap
              (trialCropsY s)).drop s.batch_size = _
        rw [List.flatMap_cons]
        simp
      · show t.next_to_unpack = s.next_to_unpack + dgK s
        rw [hcur]
        show s.next_to_unpack + 1 + (dgK s - 1) = s.next_to_unpack + dgK s
        omega
      · intro h0
        rw [hbY, hkval]
        have hb := ceil_div_bounds s.batch_size s.n_crops_for_trial hcpt (by omega)
        simpa using hb
    · -- refill with the cursor ≥ 1: pure appending
      have hbX : dgBaseX s = s.crop_stack_X := by
        unfold dgBaseX
        rw [if_neg (by rintro ⟨h1, -⟩; omega)]
      have hbY : dgBaseY s = s.crop_stack_y := by
        unfold dgBaseY
        rw [if_neg (by rintro ⟨h1, -⟩; omega)]
      obtain ⟨t, ht, hcx, hcy, hcur, hfX, hfy, hfb, hfnc, hfcss, hfcst, hfcpt,
          hfsh, hfidx⟩ :=
        refill_append (dgK s) s (s.indexes.length + 1) hcpt (by omega) rfl henough
          (by omega)
      have hdg : data_generation s = .ok
          ((t.crop_stack_X.take s.batch_size).map (fun c => [c]),
           (t.crop_stack_y.take s.batch_size).map (fun lab => oneHot s.n_classes lab),
           { t with crop_stack_X := t.crop_stack_X.drop s.batch_size,
                    crop_stack_y := t.crop_stack_y.drop s.batch_size }) := by
        unfold data_generation
        rw [ht]
      refine ⟨_, _, _, hdg, ?_, ?_, ?_, ?_, ?_, hfX, hfy, hfb, hfidx, hfcpt,
        hiff, ?_⟩
      · rw [hcx, hbX]
      · rw [hcy, hbY]
      · show t.crop_stack_X.drop s.batch_size = _
        rw [hcx, hbX]
      · show t.crop_stack_y.drop s.batch_size = _
        rw [hcy, hbY]
      · show t.next_to_unpack = s.next_to_unpack + dgK s
        exact hcur
      · intro h0
        rw [hbY]
        have hkval : dgK s = (s.batch_size - s.crop_stack_y.length
            + s.n_crops_for_trial - 1) / s.n_crops_for_trial := by
          unfold dgK
          rw [if_neg (by omega), if_neg hc0]
        rw [hkval]
        have hb := ceil_div_bounds (s.batch_size - s.crop_stack_y.length)
          s.n_crops_for_trial hcpt (by omega)
        generalize hA : ((s.batch_size - s.crop_stack_y.length
            + s.n_crops_for_trial - 1) / s.n_crops_for_trial - 1)
            * s.n_crops_for_trial = A at hb ⊢
        generalize hB : (s.batch_size - s.crop_stack_y.length
            + s.n_crops_for_trial - 1) / s.n_crops_for_trial
            * s.n_crops_for_trial = B at hb ⊢
        omega

/-- Counterexample to C2: the claim's "append + FIFO" reading fails on the
first request after an epoch reset.  Two trials with labels 0 and 1, three
crops each, batch size 4: batch 1 leaves labels `[1, 1]` on the queue;
after `on_epoch_end` the next request *discards* those leftovers (the
cursor-0 unpack recreates the stack), so the returned one-hot labels are
`[[1,0],[1,0],[1,0],[0,1]]` — not the `[[0,1],[0,1],[1,0],[1,0]]` that
appending to the retained FIFO queue would produce. -/
theorem data_generation_append_counterexample :
    ((gen_init [[[(0 : ℤ), 1, 2, 3, 4]], [[5, 6, 7, 8, 9]]] [0, 1] 4 none 3 1
        false []).bind (fun s0 => data_generation s0)).bind
      (fun r => (data_generation (on_epoch_end r.2.2 [])).map (fun r2 => r2.2.1)) =
      .ok [[1, 0], [1, 0], [1, 0], [0, 1]]
    ∧ [[1, 0], [1, 0], [1, 0], [0, 1]] ≠ [[0, 1], [0, 1], [1, 0], [1, 0]] :=
  ⟨rfl, by decide⟩

/-- Witness for C2 at `genStateW` (cursor 1, three crops queued, batch size
4): one refill appends trial 1's crops and the first four crops are
returned. -/
theorem data_generation_spec_witness :
    (0 < genStateW.n_crops_for_trial
      ∧ genStateW.next_to_unpack + dgK genStateW ≤ genStateW.indexes.length)
    ∧ ∃ XB yB t, data_generation genStateW = .ok (XB, yB, t)
      ∧ XB = ((dgBaseX genStateW ++ (pendingTrials genStateW (dgK genStateW)).flatMap
          (trialCropsX genStateW)).take genStateW.batch_size).map (fun c => [c])
      ∧ yB = ((dgBaseY genStateW ++ (pendingTrials genStateW (dgK genStateW)).flatMap
          (trialCropsY genStateW)).take genStateW.batch_size).map
            (fun lab => oneHot genStateW.n_classes lab)
      ∧ t.crop_stack_X = (dgBaseX genStateW
          ++ (pendingTrials genStateW (dgK genStateW)).flatMap
            (trialCropsX genStateW)).drop genStateW.batch_size
      ∧ t.crop_stack_y = (dgBaseY genStateW
          ++ (pendingTrials genStateW (dgK genStateW)).flatMap
            (trialCropsY genStateW)).drop genStateW.batch_size
      ∧ t.next_to_unpack = genStateW.next_to_unpack + dgK genStateW
      ∧ t.X = genStateW.X ∧ t.y = genStateW.y ∧ t.batch_size = genStateW.batch_size
      ∧ t.indexes = genStateW.indexes
      ∧ t.n_crops_for_trial = genStateW.n_crops_for_trial
      ∧ (dgK genStateW = 0 ↔ genStateW.batch_size ≤ genStateW.crop_stack_y.length)
      ∧ (0 < dgK genStateW →
          (dgBaseY genStateW).length
              + (dgK genStateW - 1) * genStateW.n_crops_for_trial
            < genStateW.batch_size
          ∧ genStateW.batch_size ≤ (dgBaseY genStateW).length
              + dgK genStateW * genStateW.n_crops_for_trial) :=
  ⟨⟨by decide, by decide⟩, data_generation_spec genStateW (by decide) (by decide)⟩

lemma unpack_ok_lt {α : Type} {s s1 : GenState α}
    (h : unpack_trial s = .ok s1) : s.next_to_unpack < s.indexes.length := by
  by_contra hge
  push_neg at hge
  unfold unpack_trial at h
  rw [List.getElem?_eq_none hge] at h
  cases h

lemma refill_basic {α : Type} : ∀ (fuel : ℕ) (s t : GenState α),
    refill s fuel = .ok t →
    s.batch_size ≤ t.crop_stack_y.length
    ∧ t.batch_size = s.batch_size
    ∧ (s.crop_stack_X.length = s.crop_stack_y.length →
        t.crop_stack_X.length = t.crop_stack_y.length)
    ∧ t.n_crops_for_trial = s.n_crops_for_trial
    ∧ t.X = s.X ∧ t.y = s.y ∧ t.indexes = s.indexes
    ∧ (1 ≤ s.next_to_unpack →
        t.crop_stack_y.length + s.next_to_unpack * s.n_crops_for_trial
          = s.crop_stack_y.length + t.next_to_unpack * s.n_crops_for_trial
        ∧ t.crop_stack_X.length + s.next_to_unpack * s.n_crops_for_trial
          = s.crop_stack_X.length + t.next_to_unpack * s.n_crops_for_trial
        ∧ 1 ≤ t.next_to_unpack)
    ∧ (s.next_to_unpack = 0 → s.crop_stack_y.length < s.batch_size →
        t.crop_stack_y.length = t.next_to_unpack * s.n_crops_for_trial
        ∧ t.crop_stack_X.length = t.next_to_unpack * s.n_crops_for_trial
        ∧ 1 ≤ t.next_to_unpack) := by
  intro fuel
  induction fuel with
  | zero =>
    intro s t h
    have hz : refill s 0 = if s.crop_stack_y.length < s.batch_size
        then .error .outOfFuel else .ok s := rfl
    rw [hz] at h
    split at h
    · cases h
    · cases h
      refine ⟨by omega, rfl, fun hxy => hxy, rfl, rfl, rfl, rfl,
        fun h1 => ⟨rfl, rfl, h1⟩, fun h0 hlt => ?_⟩
      omega
  | succ f ih =>
    intro s t h
    have hz : refill s (f + 1) = if s.crop_stack_y.length < s.batch_size then
        match unpack_trial s with
        | .error e => .error e
        | .ok s2 => refill s2 f
      else .ok s := rfl
    rw [hz] at h
    split at h
    case isFalse hq =>
      cases h
      refine ⟨by omega, rfl, fun hxy => hxy, rfl, rfl, rfl, rfl,
        fun h1 => ⟨rfl, rfl, h1⟩, fun h0 hlt => ?_⟩
      omega
    case isTrue hq =>
      cases hu : unpack_trial s with
      | error e =>
        rw [hu] at h
        cases h
      | ok s1 =>
        rw [hu] at h
        have hclt := unpack_ok_lt hu
        have hrec := ih s1 t h
        obtain ⟨r1, r2, r3, r4, r5, r6, r7, r8, r9⟩ := hrec
        by_cases hc : s.next_to_unpack = 0
        · have hu2 := (unpack_replace s hc hclt).symm.trans hu
          have hs1 : s1 = { s with
              crop_stack_X := trialCropsX s (s.indexes.getD s.next_to_unpack 0),
              crop_stack_y := trialCropsY s (s.indexes.getD s.next_to_unpack 0),
              next_to_unpack := s.next_to_unpack + 1 } := (Except.ok.inj hu2).symm
          subst hs1
          have hyl : (trialCropsY s (s.indexes.getD s.next_to_unpack 0)).length
              = s.n_crops_for_trial := by
            simp [trialCropsY, crop_y]
          have hxl : (trialCropsX s (s.indexes.getD s.next_to_unpack 0)).length
              = s.n_crops_for_trial := crop_X_length _ _ _ _
          obtain ⟨c1, c2, c3⟩ := r8 (by show 1 ≤ s.next_to_unpack + 1; omega)
          rw [show ({ s with
              crop_stack_X := trialCropsX s (s.indexes.getD s.next_to_unpack 0),
              crop_stack_y := trialCropsY s (s.indexes.getD s.next_to_unpack 0),
              next_to_unpack := s.next_to_unpack + 1 } : GenState α).crop_stack_y.length
            = s.n_crops_for_trial from hyl, hc] at c1
          rw [show ({ s with
              crop_stack_X := trialCropsX s (s.indexes.getD s.next_to_unpack 0),
              crop_stack_y := trialCropsY s (s.indexes.getD s.next_to_unpack 0),
              next_to_unpack := s.next_to_unpack + 1 } : GenState α).crop_stack_X.length
            = s.n_crops_for_trial from hxl, hc] at c2
          refine ⟨r1, r2, fun hxy => r3 (by rw [hxl, hyl]), r4, r5, r6, r7,
            fun h1 => absurd hc (by omega), fun h0 hlt => ⟨?_, ?_, c3⟩⟩
          · have hone : (0 + 1) * s.n_crops_for_trial = s.n_crops_for_trial := by ring
            rw [hone] at c1
            linarith [c1]
          · have hone : (0 + 1) * s.n_crops_for_trial = s.n_crops_for_trial := by ring
            rw [hone] at c2
            linarith [c2]
        · have hu2 := (unpack_append s hc hclt).symm.trans hu
          have hs1 : s1 = { s with
              crop_stack_X := s.crop_stack_X
                ++ trialCropsX s (s.indexes.getD s.next_to_unpack 0),
              crop_stack_y := s.crop_stack_y
                ++ trialCropsY s (s.indexes.getD s.next_to_unpack 0),
              next_to_unpack := s.next_to_unpack + 1 } := (Except.ok.inj hu2).symm
          subst hs1
          have hyl : (s.crop_stack_y
              ++ trialCropsY s (s.indexes.getD s.next_to_unpack 0)).length
              = s.crop_stack_y.length + s.n_crops_for_trial := by
            simp [trialCropsY, crop_y]
          have hxl : (s.crop_stack_X
              ++ trialCropsX s (s.indexes.getD s.next_to_unpack 0)).length
              = s.crop_stack_X.length + s.n_crops_for_trial := by
            simp [trialCropsX, crop_X]
          obtain ⟨c1, c2, c3⟩ := r8 (by show 1 ≤ s.next_to_unpack + 1; omega)
          refine ⟨r1, r2, fun hxy => r3 (by
              show (s.crop_stack_X ++ _).length = (s.crop_stack_y ++ _).length
              rw [hxl, hyl, hxy]),
            r4, r5, r6, r7, fun h1 => ⟨?_, ?_, c3⟩,
            fun h0 hlt => absurd h0 hc⟩
          · rw [hyl] at c1
            rw [Nat.succ_mul] at c1
            linarith [c1]
          · rw [hxl] at c2
            rw [Nat.succ_mul] at c2
            linarith [c2]

lemma data_generation_basic {α : Type} (s : GenState α)
    (XB : List (List (List (List α)))) (yB : List (List ℕ)) (t : GenState α)
    (h : data_generation s = .ok (XB, yB, t)) :
    (s.crop_stack_X.length = s.crop_stack_y.length →
      XB.length = s.batch_size ∧ yB.length = s.batch_size
      ∧ t.crop_stack_X.length = t.crop_stack_y.length)
    ∧ t.batch_size = s.batch_size ∧ t.n_crops_for_trial = s.n_crops_for_trial
    ∧ t.X = s.X ∧ t.y = s.y ∧ t.indexes = s.indexes
    ∧ (1 ≤ s.next_to_unpack →
        t.crop_stack_y.length + s.batch_size + s.next_to_unpack * s.n_crops_for_trial
          = s.crop_stack_y.length + t.next_to_unpack * s.n_crops_for_trial
        ∧ 1 ≤ t.next_to_unpack)
    ∧ (s.next_to_unpack = 0 → s.crop_stack_y.length < s.batch_size →
        t.crop_stack_y.length + s.batch_size
          = t.next_to_unpack * s.n_crops_for_trial
        ∧ 1 ≤ t.next_to_unpack) := by
  unfold data_generation at h
  cases hr : refill s (s.indexes.length + 1) with
  | error e =>
    rw [hr] at h
    cases h
  | ok u =>
    rw [hr] at h
    obtain ⟨b1, b2, b3, b4, b5, b6, b7, b8, b9⟩ := refill_basic _ s u hr
    have hXB : XB = (u.crop_stack_X.take s.batch_size).map (fun c => [c]) :=
      (congrArg (fun p => p.1) (Except.ok.inj h)).symm
    have hyB : yB = (u.crop_stack_y.take s.batch_size).map
        (fun lab => oneHot s.n_classes lab) :=
      (congrArg (fun p => p.2.1) (Except.ok.inj h)).symm
    have ht : t = { u with crop_stack_X := u.crop_stack_X.drop s.batch_size,
                           crop_stack_y := u.crop_stack_y.drop s.batch_size } :=
      (congrArg (fun p => p.2.2) (Except.ok.inj h)).symm
    subst hXB hyB ht
    refine ⟨fun hxy => ⟨?_, ?_, ?_⟩, b2, b4, b5, b6, b7, fun h1 => ⟨?_, ?_⟩,
      fun h0 hlt => ⟨?_, ?_⟩⟩
    · have hul : s.batch_size ≤ u.crop_stack_X.length := by
        rw [b3 hxy]
        exact b1
      simp only [List.length_map, List.length_take]
      omega
    · simp only [List.length_map, List.length_take]
      omega
    · show (u.crop_stack_X.drop s.batch_size).length
        = (u.crop_stack_y.drop s.batch_size).length
      simp only [List.length_drop, b3 hxy]
    · show (u.crop_stack_y.drop s.batch_size).length + s.batch_size
          + s.next_to_unpack * s.n_crops_for_trial
        = s.crop_stack_y.length + u.next_to_unpack * s.n_crops_for_trial
      obtain ⟨c1, -, -⟩ := b8 h1
      simp only [List.length_drop]
      omega
    · show 1 ≤ u.next_to_unpack
      exact (b8 h1).2.2
    · show (u.crop_stack_y.drop s.batch_size).length + s.batch_size
        = u.next_to_unpack * s.n_crops_for_trial
      obtain ⟨c1, -, -⟩ := b9 h0 hlt
      simp only [List.length_drop]
      omega
    · show 1 ≤ u.next_to_unpack
      exact (b9 h0 hlt).2.2

lemma gen_init_props {α : Type} {X : List (List (List α))} {y : List ℕ}
    {b : ℕ} {nC : Option ℕ} {size step : ℕ} {sh : Bool} {perm : List ℕ}
    {s0 : GenState α}
    (h : gen_init X y b nC size step sh perm = .ok s0) :
    s0.batch_size = b ∧ s0.X = X ∧ s0.y = y
    ∧ s0.n_crops_for_trial
        = (cropCount (dim3 X : ℤ) (size : ℤ) (step : ℤ)).toNat
    ∧ s0.next_to_unpack = 1
    ∧ s0.crop_stack_y.length = s0.n_crops_for_trial
    ∧ s0.crop_stack_X.length = s0.n_crops_for_trial := by
  unfold gen_init at h
  simp only at h
  have hlt := unpack_ok_lt h
  rw [unpack_replace _ rfl hlt] at h
  have hs0 := (Except.ok.inj h).symm
  subst hs0
  refine ⟨rfl, rfl, rfl, rfl, rfl, ?_, ?_⟩
  · simp [trialCropsY, crop_y]
  · simp [trialCropsX, crop_X]

/-- C3.  Batch-count law: a constructed batcher reports
`length() = floor(totalCrops / batchSize)` with
`totalCrops = cropsPerTrial * numTrials`, so
`length()*batchSize ≤ totalCrops < (length()+1)*batchSize` — and every
batch a `getBatch` request emits holds exactly `batchSize` crops and
labels; no short batch is ever produced. -/
theorem batch_count_law {α : Type} :
    (∀ (X : List (List (List α))) (y : List ℕ) (b : ℕ) (nC : Option ℕ)
        (size step : ℕ) (sh : Bool) (perm : List ℕ) (s0 : GenState α),
      gen_init X y b nC size step sh perm = .ok s0 → 0 < b →
      gen_len s0 = s0.n_crops_for_trial * X.length / b
      ∧ gen_len s0 * b ≤ s0.n_crops_for_trial * X.length
      ∧ s0.n_crops_for_trial * X.length < (gen_len s0 + 1) * b)
    ∧ (∀ (s : GenState α) (XB : List (List (List (List α))))
        (yB : List (List ℕ)) (t : GenState α),
      s.crop_stack_X.length = s.crop_stack_y.length →
      data_generation s = .ok (XB, yB, t) →
      XB.length = s.batch_size ∧ yB.length = s.batch_size) := by
  constructor
  · intro X y b nC size step sh perm s0 h hb
    obtain ⟨hb0, hX0, -, -, -, -, -⟩ := gen_init_props h
    have htot : genTotalCrops s0 = s0.n_crops_for_trial * X.length := by
      unfold genTotalCrops
      rw [hX0]
    have hlen : gen_len s0 = s0.n_crops_for_trial * X.length / b := by
      unfold gen_len
      rw [htot, hb0]
    refine ⟨hlen, ?_, ?_⟩
    · rw [hlen]
      exact Nat.div_mul_le_self _ _
    · rw [hlen]
      exact (Nat.div_lt_iff_lt_mul hb).mp (Nat.lt_succ_self _)
  · intro s XB yB t hxy h
    have hfacts := data_generation_basic s XB yB t h
    exact ⟨(hfacts.1 hxy).1, (hfacts.1 hxy).2.1⟩

/-- Witness for C3: one trial of one length-3 channel, geometry (3, 1),
batch size 1: `length() = 1` and the single batch has exactly one crop. -/
theorem batch_count_law_witness :
    (gen_init [[[(0 : ℤ), 1, 2]]] [0] 1 none 3 1 false [] =
        .ok (⟨[[[0, 1, 2]]], [0], 1, 1, 3, 1, 1, false, [0], 1, [[[0, 1, 2]]], [0]⟩
          : GenState ℤ)
      ∧ 0 < 1)
    ∧ (gen_len (⟨[[[0, 1, 2]]], [0], 1, 1, 3, 1, 1, false, [0], 1, [[[0, 1, 2]]], [0]⟩
          : GenState ℤ)
        = (⟨[[[0, 1, 2]]], [0], 1, 1, 3, 1, 1, false, [0], 1, [[[0, 1, 2]]], [0]⟩
            : GenState ℤ).n_crops_for_trial * ([[[(0 : ℤ), 1, 2]]] : List _).length / 1
      ∧ gen_len (⟨[[[0, 1, 2]]], [0], 1, 1, 3, 1, 1, false, [0], 1, [[[0, 1, 2]]], [0]⟩
            : GenState ℤ) * 1
          ≤ (⟨[[[0, 1, 2]]], [0], 1, 1, 3, 1, 1, false, [0], 1, [[[0, 1, 2]]], [0]⟩
              : GenState ℤ).n_crops_for_trial * ([[[(0 : ℤ), 1, 2]]] : List _).length
      ∧ (⟨[[[0, 1, 2]]], [0], 1, 1, 3, 1, 1, false, [0], 1, [[[0, 1, 2]]], [0]⟩
            : GenState ℤ).n_crops_for_trial * ([[[(0 : ℤ), 1, 2]]] : List _).length
          < (gen_len (⟨[[[0, 1, 2]]], [0], 1, 1, 3, 1, 1, false, [0], 1,
              [[[0, 1, 2]]], [0]⟩ : GenState ℤ) + 1) * 1) :=
  ⟨⟨rfl, by decide⟩,
   batch_count_law.1 [[[(0 : ℤ), 1, 2]]] [0] 1 none 3 1 false []
     (⟨[[[0, 1, 2]]], [0], 1, 1, 3, 1, 1, false, [0], 1, [[[0, 1, 2]]], [0]⟩
       : GenState ℤ) rfl (by decide)⟩

lemma apply_batches_conserve {α : Type} : ∀ (m : ℕ) (s u : GenState α),
    apply_batches s m = .ok u →
    1 ≤ s.next_to_unpack →
    s.crop_stack_X.length = s.crop_stack_y.length →
    u.crop_stack_y.length + m * s.batch_size + s.next_to_unpack * s.n_crops_for_trial
      = s.crop_stack_y.length + u.next_to_unpack * s.n_crops_for_trial
    ∧ 1 ≤ u.next_to_unpack
    ∧ u.crop_stack_X.length = u.crop_stack_y.length
    ∧ u.batch_size = s.batch_size
    ∧ u.n_crops_for_trial = s.n_crops_for_trial := by
  intro m
  induction m with
  | zero =>
    intro s u h h1 h2
    have hz : apply_batches s 0 = .ok s := rfl
    rw [hz] at h
    cases h
    exact ⟨by simp, h1, h2, rfl, rfl⟩
  | succ m ih =>
    intro s u h h1 h2
    have hz : apply_batches s (m + 1) = match data_generation s with
        | .error e => .error e
        | .ok r => apply_batches r.2.2 m := rfl
    rw [hz] at h
    cases hd : data_generation s with
    | error e =>
      rw [hd] at h
      cases h
    | ok r =>
      rw [hd] at h
      obtain ⟨XB, yB, t⟩ := r
      obtain ⟨d1, d2, d3, d4, d5, d6, d7, d8⟩ := data_generation_basic s XB yB t hd
      obtain ⟨e1, e2⟩ := d7 h1
      have ht2 : t.crop_stack_X.length = t.crop_stack_y.length := (d1 h2).2.2
      obtain ⟨f1, f2, f3, f4, f5⟩ := ih t u h e2 ht2
      rw [d2] at f1 f4
      rw [d3] at f1 f5
      refine ⟨?_, f2, f3, f4, f5⟩
      rw [Nat.succ_mul]
      have e1' := e1
      generalize hA : s.next_to_unpack * s.n_crops_for_trial = A at e1' ⊢
      generalize hB : t.next_to_unpack * s.n_crops_for_trial = B at e1' f1 ⊢
      generalize hC : u.next_to_unpack * s.n_crops_for_trial = C at f1 ⊢
      generalize hD : m * s.batch_size = D at f1 ⊢
      omega

/-- C10.  Epoch conservation invariant: from construction (which leaves the
cursor at 1 with one trial's crops queued), after every successful sequence
of `m` `getBatch` calls the queue holds exactly
`cursor * cropsPerTrial − m * batchSize` crops (stated additively in ℕ, so
the quantity is nonnegative and no crop is duplicated or fabricated); the
same holds within any later epoch, counting from its reset, whenever the
epoch starts — as every keras-driven epoch does — with an underfull queue,
since the first refill then recreates the stacks.  The two crop stacks stay
aligned throughout. -/
theorem queue_conservation {α : Type} :
    (∀ (X : List (List (List α))) (y : List ℕ) (b : ℕ) (nC : Option ℕ)
        (size step : ℕ) (sh : Bool) (perm : List ℕ) (s0 u : GenState α) (m : ℕ),
      gen_init X y b nC size step sh perm = .ok s0 →
      apply_batches s0 m = .ok u →
      u.crop_stack_y.length + m * b
        = u.next_to_unpack * s0.n_crops_for_trial
      ∧ m * b ≤ u.next_to_unpack * s0.n_crops_for_trial
      ∧ u.crop_stack_X.length = u.crop_stack_y.length)
    ∧ (∀ (sr u : GenState α) (m : ℕ),
      sr.next_to_unpack = 0 →
      sr.crop_stack_y.length < sr.batch_size →
      sr.crop_stack_X.length = sr.crop_stack_y.length →
      1 ≤ m →
      apply_batches sr m = .ok u →
      u.crop_stack_y.length + m * sr.batch_size
        = u.next_to_unpack * sr.n_crops_for_trial
      ∧ m * sr.batch_size ≤ u.next_to_unpack * sr.n_crops_for_trial
      ∧ u.crop_stack_X.length = u.crop_stack_y.length) := by
  constructor
  · intro X y b nC size step sh perm s0 u m hinit happ
    obtain ⟨g1, -, -, -, g5, g6, g7⟩ := gen_init_props hinit
    obtain ⟨f1, -, f3, -, -⟩ :=
      apply_batches_conserve m s0 u happ (by omega) (g7.trans g6.symm)
    rw [g1, g5, g6, one_mul] at f1
    refine ⟨by omega, ?_, f3⟩
    generalize hB : u.next_to_unpack * s0.n_crops_for_trial = B at f1 ⊢
    generalize hD : m * b = D at f1 ⊢
    omega
  · intro sr u m h0 hlt hxy hm happ
    obtain ⟨m2, rfl⟩ : ∃ m2, m = m2 + 1 := ⟨m - 1, by omega⟩
    have hz : apply_batches sr (m2 + 1) = match data_generation sr with
        | .error e => .error e
        | .ok r => apply_batches r.2.2 m2 := rfl
    rw [hz] at happ
    cases hd : data_generation sr with
    | error e =>
      rw [hd] at happ
      cases happ
    | ok r =>
      rw [hd] at happ
      obtain ⟨XB, yB, t⟩ := r
      obtain ⟨d1, d2, d3, d4, d5, d6, d7, d8⟩ := data_generation_basic sr XB yB t hd
      obtain ⟨e1, e2⟩ := d8 h0 hlt
      have ht2 : t.crop_stack_X.length = t.crop_stack_y.length := (d1 hxy).2.2
      obtain ⟨f1, f2, f3, f4, f5⟩ := apply_batches_conserve m2 t u happ e2 ht2
      rw [d2] at f1 f4
      rw [d3] at f1 f5
      rw [Nat.succ_mul]
      refine ⟨?_, ?_, f3⟩ <;>
      · generalize hA : t.next_to_unpack * sr.n_crops_for_trial = A at e1 f1 ⊢
        generalize hB : u.next_to_unpack * sr.n_crops_for_trial = B at f1 ⊢
        generalize hD : m2 * sr.batch_size = D at f1 ⊢
        omega

/-- Witness for C10: the two-trial batcher (three crops per trial, batch
size 4) after construction and one batch: the queue holds 2 crops, and
`2 + 1*4 = 2*3`. -/
theorem queue_conservation_witness :
    (gen_init [[[(0 : ℤ), 1, 2, 3, 4]], [[5, 6, 7, 8, 9]]] [0, 1] 4 none 3 1
        false [] = .ok genStateW
      ∧ apply_batches genStateW 1 =
        .ok (⟨[[[0, 1, 2, 3, 4]], [[5, 6, 7, 8, 9]]], [0, 1], 4, 2, 3, 1, 3, false,
          [0, 1], 2, [[[6, 7, 8]], [[7, 8, 9]]], [1, 1]⟩ : GenState ℤ))
    ∧ ((⟨[[[0, 1, 2, 3, 4]], [[5, 6, 7, 8, 9]]], [0, 1], 4, 2, 3, 1, 3, false,
          [0, 1], 2, [[[6, 7, 8]], [[7, 8, 9]]], [1, 1]⟩
          : GenState ℤ).crop_stack_y.length + 1 * 4
        = (⟨[[[0, 1, 2, 3, 4]], [[5, 6, 7, 8, 9]]], [0, 1], 4, 2, 3, 1, 3, false,
          [0, 1], 2, [[[6, 7, 8]], [[7, 8, 9]]], [1, 1]⟩
          : GenState ℤ).next_to_unpack * genStateW.n_crops_for_trial
      ∧ 1 * 4 ≤ (⟨[[[0, 1, 2, 3, 4]], [[5, 6, 7, 8, 9]]], [0, 1], 4, 2, 3, 1, 3,
          false, [0, 1], 2, [[[6, 7, 8]], [[7, 8, 9]]], [1, 1]⟩
          : GenState ℤ).next_to_unpack * genStateW.n_crops_for_trial
      ∧ (⟨[[[0, 1, 2, 3, 4]], [[5, 6, 7, 8, 9]]], [0, 1], 4, 2, 3, 1, 3, false,
          [0, 1], 2, [[[6, 7, 8]], [[7, 8, 9]]], [1, 1]⟩
          : GenState ℤ).crop_stack_X.length
        = (⟨[[[0, 1, 2, 3, 4]], [[5, 6, 7, 8, 9]]], [0, 1], 4, 2, 3, 1, 3, false,
          [0, 1], 2, [[[6, 7, 8]], [[7, 8, 9]]], [1, 1]⟩
          : GenState ℤ).crop_stack_y.length) :=
  ⟨⟨rfl, rfl⟩,
   queue_conservation.1 [[[(0 : ℤ), 1, 2, 3, 4]], [[5, 6, 7, 8, 9]]] [0, 1] 4 none
     3 1 false [] genStateW
     (⟨[[[0, 1, 2, 3, 4]], [[5, 6, 7, 8, 9]]], [0, 1], 4, 2, 3, 1, 3, false,
       [0, 1], 2, [[[6, 7, 8]], [[7, 8, 9]]], [1, 1]⟩ : GenState ℤ) 1 rfl rfl⟩

end Hgdecode
